import Mathlib

/-!
Verification development for the payroll report correction pipeline.

The development shallowly embeds two source components:
  * the RuleEngine (seven business-correction rules applied per entry), and
  * the PDF text parsers (the single-line-entry parser, here suffixed A, and
    the four-line-entry parser, here suffixed B).

Strings are modelled by the Lean String type; the JavaScript string and
regular-expression operations used by the source are implemented explicitly
over the underlying character lists so that every definition is executable.
-/

namespace Payroll

set_option maxRecDepth 200000

/-- Whitespace characters recognised by the JS regular-expression class for
whitespace and by the trim operation (space, tab, newline, carriage return,
vertical tab, form feed). -/
def jsIsSpace (c : Char) : Bool :=
  c == ' ' || c == '\t' || c == '\n' || c == '\r' ||
  c == Char.ofNat 11 || c == Char.ofNat 12

/-- Decimal digit, as in the JS regex digit class. -/
def jsIsDigit (c : Char) : Bool :=
  c.isDigit

/-- Word character, as in the JS regex word class: letters, digits, underscore. -/
def jsIsWord (c : Char) : Bool :=
  c.isAlphanum || c == '_'

/-- Model of the JS trim operation: strip whitespace from both ends. -/
def jsTrim (s : String) : String :=
  String.mk (((s.data.dropWhile jsIsSpace).reverse.dropWhile jsIsSpace).reverse)

/-- Model of the JS toUpperCase operation on ASCII strings. -/
def strUpper (s : String) : String :=
  String.mk (s.data.map Char.toUpper)

/-- Model of the JS toLowerCase operation on ASCII strings. -/
def strLower (s : String) : String :=
  String.mk (s.data.map Char.toLower)

/-- Whether the first list is an initial segment of the second. -/
def listIsPre : List Char → List Char → Bool
  | [], _ => true
  | _ :: _, [] => false
  | p :: ps, c :: cs => p == c && listIsPre ps cs

/-- Index of the first occurrence of the pattern in the list, if any. -/
def listFindIdx (pat : List Char) : List Char → Option Nat
  | [] => if listIsPre pat [] then some 0 else none
  | c :: cs =>
    if listIsPre pat (c :: cs) then some 0
    else (listFindIdx pat cs).map (· + 1)

/-- Model of the JS startsWith operation. -/
def strStarts (s pat : String) : Bool :=
  listIsPre pat.data s.data

/-- Model of the JS endsWith operation. -/
def strEnds (s pat : String) : Bool :=
  listIsPre pat.data.reverse s.data.reverse

/-- Model of the JS includes operation (substring occurrence). -/
def strContainsStr (s pat : String) : Bool :=
  (listFindIdx pat.data s.data).isSome

/-- Model of the JS indexOf operation, returning none when absent. -/
def indexOfStr (s pat : String) : Option Nat :=
  listFindIdx pat.data s.data

/-- Splitting worker for a non-empty separator.  The fuel argument is a
structural-recursion bound; every call site passes one more than the length
of the list, which always suffices because each step consumes at least one
character. -/
def splitOnGo (sep : List Char) : Nat → List Char → List (List Char)
  | _, [] => [[]]
  | 0, s => [s]
  | fuel + 1, c :: cs =>
    if listIsPre sep (c :: cs) then
      [] :: splitOnGo sep fuel (cs.drop (sep.length - 1))
    else
      match splitOnGo sep fuel cs with
      | [] => [[c]]
      | h :: t => (c :: h) :: t

/-- Model of the JS split operation with a string separator. -/
def splitOnStr (s sep : String) : List String :=
  match sep.data with
  | [] => [s]
  | _ :: _ => (splitOnGo sep.data (s.data.length + 1) s.data).map String.mk

/-- Split a text into its lines, as the source does with split on newline. -/
def splitLinesStr (s : String) : List String :=
  splitOnStr s "\n"

/-- Value of a list of decimal digit characters. -/
def digitsToNat (cs : List Char) : Nat :=
  cs.foldl (fun acc c => acc * 10 + (c.toNat - 48)) 0

/-- Exact value of a decimal numeral: the digits as a natural number and the
count of fraction digits, denoting num divided by ten to the exp.  This keeps
every parser computation executable by kernel reduction; the rational value
is recovered by toRat. -/
structure DecVal where
  num : Nat
  exp : Nat
deriving DecidableEq, Repr

/-- The rational value of a decimal numeral. -/
def DecVal.toRat (d : DecVal) : Rat :=
  (d.num : Rat) / (10 : Rat) ^ d.exp

/-- Value of a decimal literal with integer digits and fraction digits, as
produced by the JS parseFloat on the captured numerals. -/
def decOfDigits (ip fp : List Char) : DecVal :=
  ⟨digitsToNat (ip ++ fp), fp.length⟩

/-- Parse a date string in the month/day/year layout accepted by the moment
format string used by the source: one or two digit month and day, four digit
year, separated by slashes, nothing else.  Returns (month, day, year). -/
def parseDateMMDDYYYY (s : String) : Option (Nat × Nat × Nat) :=
  match splitOnStr s "/" with
  | [ms, ds, ys] =>
    if ms.data ≠ [] ∧ ms.data.length ≤ 2 ∧ ms.data.all jsIsDigit ∧
       ds.data ≠ [] ∧ ds.data.length ≤ 2 ∧ ds.data.all jsIsDigit ∧
       ys.data.length = 4 ∧ ys.data.all jsIsDigit then
      some (digitsToNat ms.data, digitsToNat ds.data, digitsToNat ys.data)
    else none
  | _ => none

/-- Gregorian leap year test. -/
def isLeapYear (y : Nat) : Bool :=
  (y % 4 == 0 && y % 100 != 0) || y % 400 == 0

/-- Number of days in a month of a given year. -/
def daysInMonth (y m : Nat) : Nat :=
  if m = 2 then (if isLeapYear y then 29 else 28)
  else if m = 4 ∨ m = 6 ∨ m = 9 ∨ m = 11 then 30 else 31

/-- Month offsets of the Sakamoto day-of-week formula. -/
def sakamotoTable : List Nat :=
  [0, 3, 2, 5, 0, 3, 5, 1, 4, 6, 2, 4]

/-- Day of the week of a Gregorian date, 0 denoting Sunday, matching the
day accessor of the moment library. -/
def dayOfWeek (y m d : Nat) : Nat :=
  let y2 := if m < 3 then y - 1 else y
  (y2 + y2 / 4 + y2 / 400 + (sakamotoTable.getD (m - 1) 0) + d - y2 / 100) % 7

/-- Model of the source date test for the Sunday rule: the date string parses
in the month/day/year layout, denotes an existing calendar day, and that day
is a Sunday. -/
def isSundayDate (s : String) : Bool :=
  match parseDateMMDDYYYY s with
  | some (m, d, y) =>
    1 ≤ m && m ≤ 12 && 1 ≤ d && d ≤ daysInMonth y m && dayOfWeek y m d == 0
  | none => false

/-- A parsed time entry.  Field names follow the source objects.  The labor
rate and the cost code are plain strings; absent string values of the source
are modelled by the empty string, and the two optional stamped fields by
Option. -/
structure TimeEntry where
  employeeName : String := ""
  employeeId : String := ""
  jobCode : String := ""
  jobDescription : String := ""
  date : String := ""
  hours : DecVal := ⟨0, 0⟩
  payType : String := "Regular"
  laborRate : String := "Tech"
  costCode : String := "SERVICE"
  costCategory : String := "DirLab"
  description : String := ""
  payPeriodId : Option String := none
  reportDate : Option String := none
  originalLine : String := ""
deriving DecidableEq, Repr

/-- A change record emitted by the rule engine. -/
structure ChangeRecord where
  employeeName : String
  employeeId : String
  date : String
  field : String
  originalValue : String
  correctedValue : String
  rule : String
  description : String
deriving DecidableEq, Repr

/-- Build a change record for an entry, as each rule of the source does. -/
def mkChange (e : TimeEntry) (field orig corr rule descr : String) : ChangeRecord :=
  { employeeName := e.employeeName, employeeId := e.employeeId, date := e.date,
    field := field, originalValue := orig, correctedValue := corr,
    rule := rule, description := descr }

/-- Join a list of strings with a separator, as the JS join operation. -/
def joinSep (sep : String) : List String → String
  | [] => ""
  | [x] => x
  | x :: xs => x ++ sep ++ joinSep sep xs

/-- Allowed labor rates for service and install cost codes (rule engine
constructor constant). -/
def SERVICE_INSTALL_LABOR_RATES : List String :=
  ["Tech", "TechNB", "MNTech", "MN TECH", "SCH_MNTECH", "SCH_TECH",
   "SCHTECHNB", "WN MN TECH", "WN TECH", "WN TECHNB",
   "TechOT", "TECHOT", "MNTECHOT", "MN TECHOT", "SCH_TECHOT",
   "SCH_MNTECHOT", "WN TECHOT", "WN MN TECHOT", "WN MNTECHOT",
   "HELPER", "MN HELPER", "SCH_HELPER", "WN HELPER",
   "HELPEROT", "MN HELPEROT", "SCH_HELPEROT", "WN HELPEROT",
   "HELPOT", "MN HELPOT", "SCH_HELPOT", "WN HELPOT",
   "SHOP", "SCH_SHOP", "WN SHOP"]

/-- Allowed labor rates for PM family cost codes (rule engine constructor
constant). -/
def PM_LABOR_RATES : List String :=
  ["MN PMTECH", "PMTECH", "TechNB", "Sch MN PM Tech",
   "SCH_MN PMTECH", "SCH_PMTECH", "WN MN PM TECH", "WN PM TECH",
   "WN PMTECH", "PM TECH LABOR"]

/-- Office cost codes for rule 7 (rule engine constructor constant). -/
def OFFICE_COST_CODES : List String :=
  ["1COAD", "1SCHOF", "1WNOF"]

/-- Rule 1: when the cost category is TechUnapplyd the pay type must be
Unapplied. -/
def applyRule1_TechUnapplied (e : TimeEntry) : TimeEntry × List ChangeRecord :=
  if e.costCategory = "TechUnapplyd" ∧ e.payType ≠ "Unapplied" then
    ({ e with payType := "Unapplied" },
     [mkChange e "payType" e.payType "Unapplied"
        "Rule 1: TechUnapplied → Unapplied Pay Type"
        "Cost Category is TechUnapplyd, so Pay Type must be Unapplied"])
  else (e, [])

/-- Rule 2: service and install cost codes require a labor rate from the
approved list, the default rewrite being Tech. -/
def applyRule2_ServiceInstallRates (e : TimeEntry) : TimeEntry × List ChangeRecord :=
  let costCode := strUpper e.costCode
  if (costCode = "SERVICE" ∨ costCode = "INSTALL") ∧
     ¬ SERVICE_INSTALL_LABOR_RATES.contains e.laborRate then
    ({ e with laborRate := "Tech" },
     [mkChange e "laborRate" e.laborRate "Tech"
        "Rule 2: Service/Install Labor Rate Validation"
        ("Cost Code is " ++ costCode ++ ", Labor Rate must be one of: " ++
         joinSep ", " SERVICE_INSTALL_LABOR_RATES)])
  else (e, [])

/-- Rule 3: PM, PMF and FTPM cost codes require a labor rate from the PM
list, the default rewrite being PMTECH. -/
def applyRule3_PMRates (e : TimeEntry) : TimeEntry × List ChangeRecord :=
  let costCode := strUpper e.costCode
  if (costCode = "PM" ∨ costCode = "PMF" ∨ costCode = "FTPM") ∧
     ¬ PM_LABOR_RATES.contains e.laborRate then
    ({ e with laborRate := "PMTECH" },
     [mkChange e "laborRate" e.laborRate "PMTECH"
        "Rule 3: PM Labor Rate Validation"
        ("Cost Code is " ++ costCode ++ ", Labor Rate must be one of: " ++
         joinSep ", " PM_LABOR_RATES)])
  else (e, [])

/-- The PREM variant computed by rule 4 from the current labor rate,
preserving recognised geographic prefixes. -/
def rule4PremRate (cur : String) : String :=
  if strStarts cur "WN " then "WN PREM"
  else if strStarts cur "SCH_" || strStarts cur "SCH " then "SCH PREM"
  else if strStarts cur "MN " || strStarts cur "MNTECH" then "MN PREM"
  else "PREM"

/-- Rule 4: work on a Sunday gets Double Time pay and a PREM labor rate,
the PREM rewrite preserving geographic prefixes. -/
def applyRule4_SundayPremium (e : TimeEntry) : TimeEntry × List ChangeRecord :=
  if isSundayDate e.date then
    let step1 : TimeEntry × List ChangeRecord :=
      if e.payType ≠ "Double Time" then
        ({ e with payType := "Double Time" },
         [mkChange e "payType" e.payType "Double Time"
            "Rule 4: Sunday Premium Pay"
            "Work on Sunday requires Double Time pay type"])
      else (e, [])
    let e1 := step1.1
    if e1.laborRate = "" ∨ ¬ strContainsStr (strUpper e1.laborRate) "PREM" then
      let corrected := rule4PremRate (strUpper e1.laborRate)
      ({ e1 with laborRate := corrected },
       step1.2 ++
       [mkChange e1 "laborRate" e1.laborRate corrected
          "Rule 4: Sunday Premium Rate"
          "Work on Sunday requires PREM labor rate"])
    else (e1, step1.2)
  else (e, [])

/-- The overtime variant computed by rule 5 from the uppercased current labor
rate, preserving geographic prefixes and the helper distinction. -/
def rule5OvertimeRate (cur : String) : String :=
  if strStarts cur "WN MN " then "WN MN TECHOT"
  else if strStarts cur "WN " then "WN TECHOT"
  else if strStarts cur "SCH_MN" then "SCH_MNTECHOT"
  else if strStarts cur "SCH_" || strStarts cur "SCH " then "SCH_TECHOT"
  else if strStarts cur "MN " || cur == "MNTECH" then "MN TECHOT"
  else if cur == "TECH" then "TechOT"
  else if strContainsStr cur "HELPER" then
    (if strStarts cur "WN " then "WN HELPEROT"
     else if strStarts cur "SCH" then "SCH_HELPEROT"
     else if strStarts cur "MN " then "MN HELPEROT"
     else "HELPEROT")
  else "TechOT"

/-- Rule 5: a Call pay type requires an overtime labor rate; rates already
containing OT are left alone, otherwise the overtime variant of the current
rate is substituted. -/
def applyRule5_CallWork (e : TimeEntry) : TimeEntry × List ChangeRecord :=
  if e.payType = "Call" then
    let cur := strUpper e.laborRate
    if strContainsStr cur "OT" then (e, [])
    else
      let corrected := rule5OvertimeRate cur
      if e.laborRate ≠ corrected then
        ({ e with laborRate := corrected },
         [mkChange e "laborRate" e.laborRate corrected
            "Rule 5: Call Work Labor Rate"
            "Call pay type requires overtime labor rate"])
      else (e, [])
  else (e, [])

/-- The NB variant computed by rule 6 from the current labor rate, using the
explicit mapping of the source; unmapped rates are returned unchanged. -/
def rule6NoBillRate (currentRate : String) : String :=
  if strStarts (strUpper currentRate) "WN " then
    (if strUpper currentRate = "WN TECH" then "WN TECHNB"
     else if strUpper currentRate = "WN MN TECH" then "WN MN TECHNB"
     else if strUpper currentRate = "WN PM TECH" then "WN PM TECHNB"
     else currentRate)
  else if strStarts (strUpper currentRate) "SCH" then
    (if strUpper currentRate = "SCH_TECH" then "SCHTECHNB"
     else if strUpper currentRate = "SCH_MNTECH" then "SCH_MNTECHNB"
     else if strUpper currentRate = "SCH_PMTECH" then "SCH_PMTECHNB"
     else currentRate)
  else if strUpper currentRate = "TECH" then "TechNB"
  else if strUpper currentRate = "MNTECH" then "MNTechNB"
  else if strUpper currentRate = "PMTECH" then "PMTECHNB"
  else if strUpper currentRate = "MN PMTECH" then "MN PMTECHNB"
  else currentRate

/-- Rule 6: a description containing the no bill marker adds the NB suffix to
the labor rate through an explicit mapping, skipping rates that already end
in NB and leaving unmapped rates unchanged. -/
def applyRule6_NoBillDetection (e : TimeEntry) : TimeEntry × List ChangeRecord :=
  if e.description ≠ "" ∧ strContainsStr (strLower e.description) "no bill" then
    if e.laborRate = "" ∨ strEnds (strUpper e.laborRate) "NB" then (e, [])
    else
      let corrected := rule6NoBillRate e.laborRate
      if corrected ≠ e.laborRate then
        ({ e with laborRate := corrected },
         [mkChange e "laborRate" e.laborRate corrected
            "Rule 6: No Bill Detection"
            "Description contains \"No Bill\" - adding NB suffix to labor rate"])
      else (e, [])
  else (e, [])

/-- Rule 7: office cost codes always get the Regular pay type. -/
def applyRule7_OfficeOverride (e : TimeEntry) : TimeEntry × List ChangeRecord :=
  let costCode := strUpper e.costCode
  if OFFICE_COST_CODES.contains costCode ∧ e.payType ≠ "Regular" then
    ({ e with payType := "Regular" },
     [mkChange e "payType" e.payType "Regular"
        "Rule 7: Office Override"
        ("Office cost code " ++ costCode ++ " requires Regular pay type")])
  else (e, [])

/-- The full seven-rule pipeline on a single entry, the rules applied in the
fixed source order, change records accumulated in emission order. -/
def applyEntryRules (e : TimeEntry) : TimeEntry × List ChangeRecord :=
  let r1 := applyRule1_TechUnapplied e
  let r2 := applyRule2_ServiceInstallRates r1.1
  let r3 := applyRule3_PMRates r2.1
  let r4 := applyRule4_SundayPremium r3.1
  let r5 := applyRule5_CallWork r4.1
  let r6 := applyRule6_NoBillDetection r5.1
  let r7 := applyRule7_OfficeOverride r6.1
  (r7.1, r1.2 ++ r2.2 ++ r3.2 ++ r4.2 ++ r5.2 ++ r6.2 ++ r7.2)

/-- Apply all business rules to a list of entries, producing the corrected
entries in order and the concatenated change log. -/
def applyRules (es : List TimeEntry) : List TimeEntry × List ChangeRecord :=
  match es with
  | [] => ([], [])
  | e :: rest =>
    let head := applyEntryRules e
    let tail := applyRules rest
    (head.1 :: tail.1, head.2 ++ tail.2)

/-- Read-only validation of a single entry against all seven rules, returning
the list of human-readable compliance issues. -/
def validateEntry (e : TimeEntry) : List String :=
  let costCode := strUpper e.costCode
  (if e.costCategory = "TechUnapplyd" ∧ e.payType ≠ "Unapplied" then
    ["Cost Category is TechUnapplyd but Pay Type is not Unapplied"] else []) ++
  (if (costCode = "SERVICE" ∨ costCode = "INSTALL") ∧
      ¬ SERVICE_INSTALL_LABOR_RATES.contains e.laborRate then
    ["Service/Install work requires approved labor rate, got: " ++ e.laborRate] else []) ++
  (if (costCode = "PM" ∨ costCode = "PMF" ∨ costCode = "FTPM") ∧
      ¬ PM_LABOR_RATES.contains e.laborRate then
    ["PM work requires approved labor rate, got: " ++ e.laborRate] else []) ++
  (if isSundayDate e.date then
    (if e.payType ≠ "Double Time" then
      ["Sunday work requires Double Time pay type"] else []) ++
    (if ¬ strContainsStr (strUpper e.laborRate) "PREM" then
      ["Sunday work requires PREM labor rate"] else [])
   else []) ++
  (if e.payType = "Call" ∧ ¬ strContainsStr (strUpper e.laborRate) "OT" then
    ["Call work requires overtime labor rate"] else []) ++
  (if e.description ≠ "" ∧ strContainsStr (strLower e.description) "no bill" ∧
      e.laborRate ≠ "" ∧ ¬ strEnds (strUpper e.laborRate) "NB" then
    ["Description contains \"No Bill\" but labor rate lacks NB suffix"] else []) ++
  (if OFFICE_COST_CODES.contains costCode ∧ e.payType ≠ "Regular" then
    ["Office cost code " ++ costCode ++ " requires Regular pay type"] else [])

/-! ### Regular-expression models for the parsers -/

/-- Capture of the pay period marker: after the literal marker text, skip
whitespace and take the maximal run of non-whitespace characters, which must
be non-empty.  Searches left to right for the first position where the whole
pattern succeeds. -/
def payPeriodGo : List Char → Option String
  | [] => none
  | c :: cs =>
    (if listIsPre ("Pay Period Id:".data) (c :: cs) then
      let after := (c :: cs).drop ("Pay Period Id:".data.length)
      let after2 := after.dropWhile jsIsSpace
      let tok := after2.takeWhile (fun ch => ¬ jsIsSpace ch)
      if tok ≠ [] then some (String.mk tok) else none
    else none).orElse (fun _ => payPeriodGo cs)

/-- Capture of the pay period marker applied to a whole line. -/
def payPeriodCapture (s : String) : Option String :=
  payPeriodGo s.data

/-- Match exactly three word characters at the front. -/
def matchW3 : List Char → Option (List Char × List Char)
  | a :: b :: c :: rest =>
    if jsIsWord a && jsIsWord b && jsIsWord c then some ([a, b, c], rest) else none
  | _ => none

/-- Match one or more whitespace characters at the front, returning the
matched run and the remainder. -/
def matchWs1 : List Char → Option (List Char × List Char)
  | c :: cs =>
    if jsIsSpace c then
      some ((c :: cs).takeWhile jsIsSpace, (c :: cs).dropWhile jsIsSpace)
    else none
  | [] => none

/-- Match one or two digits directly followed by a comma (greedy with
backtracking, as the regex engine would). -/
def matchD12Comma : List Char → Option (List Char × List Char)
  | a :: b :: c :: rest =>
    if jsIsDigit a && jsIsDigit b && c == ',' then some ([a, b, c], rest)
    else if jsIsDigit a && b == ',' then some ([a, b], c :: rest)
    else none
  | [a, b] => if jsIsDigit a && b == ',' then some ([a, b], []) else none
  | _ => none

/-- Match exactly four digits at the front. -/
def matchD4 : List Char → Option (List Char × List Char)
  | a :: b :: c :: d :: rest =>
    if jsIsDigit a && jsIsDigit b && jsIsDigit c && jsIsDigit d then
      some ([a, b, c, d], rest)
    else none
  | _ => none

/-- Attempt the report date pattern at the current position: three word
characters, whitespace, three word characters, whitespace, one or two digits,
a comma, whitespace, four digits.  Returns the matched text. -/
def matchReportDateAt (s : List Char) : Option String := do
  let (w1, r1) ← matchW3 s
  let (sp1, r2) ← matchWs1 r1
  let (w2, r3) ← matchW3 r2
  let (sp2, r4) ← matchWs1 r3
  let (dc, r5) ← matchD12Comma r4
  let (sp3, r6) ← matchWs1 r5
  let (y, _) ← matchD4 r6
  pure (String.mk (w1 ++ sp1 ++ w2 ++ sp2 ++ dc ++ sp3 ++ y))

/-- Leftmost search worker for the report date pattern. -/
def searchRDGo : List Char → Option String
  | [] => none
  | c :: cs => (matchReportDateAt (c :: cs)).orElse (fun _ => searchRDGo cs)

/-- Leftmost occurrence of the report date pattern in a line. -/
def searchReportDate (s : String) : Option String :=
  searchRDGo s.data

/-- Characters admitted in the name group of the employee header pattern:
letters, apostrophe, comma, period, whitespace, hyphen. -/
def nameClassChar (c : Char) : Bool :=
  (('A' ≤ c && c ≤ 'Z') || ('a' ≤ c && c ≤ 'z')) ||
  c == Char.ofNat 39 || c == ',' || c == '.' || jsIsSpace c || c == '-'

/-- Tail of the anchored employee header pattern of the single-line parser:
optional whitespace, a hyphen, optional whitespace, one or more digits,
optional whitespace, end of line.  Returns the digit group. -/
def headerTailA (s : List Char) : Option (List Char) :=
  match s.dropWhile jsIsSpace with
  | '-' :: r =>
    let r1 := r.dropWhile jsIsSpace
    let ds := r1.takeWhile jsIsDigit
    let rest := r1.dropWhile jsIsDigit
    if ds ≠ [] ∧ rest.dropWhile jsIsSpace = [] then some ds else none
  | _ => none

/-- Lazy scan for the employee header of the single-line parser: the name
group is the shortest non-empty prefix of name-class characters whose
remainder matches the header tail. -/
def empHeaderGoA : List Char → List Char → Option (List Char × List Char)
  | _, [] => none
  | nameRev, c :: cs =>
    if nameClassChar c then
      match headerTailA cs with
      | some ds => some ((c :: nameRev).reverse, ds)
      | none => empHeaderGoA (c :: nameRev) cs
    else none

/-- Employee header match of the single-line parser, returning the trimmed
name and the identifier digits. -/
def employeeHeaderMatchA (t : String) : Option (String × String) :=
  (empHeaderGoA [] t.data).map fun p => (jsTrim (String.mk p.1), String.mk p.2)

/-- Match one or two digits directly followed by a slash (greedy with
backtracking, as the regex engine would). -/
def matchD12Slash : List Char → Option (List Char × List Char)
  | a :: b :: c :: rest =>
    if jsIsDigit a && jsIsDigit b && c == '/' then some ([a, b, c], rest)
    else if jsIsDigit a && b == '/' then some ([a, b], c :: rest)
    else none
  | [a, b] => if jsIsDigit a && b == '/' then some ([a, b], []) else none
  | _ => none

/-- Attempt the date pattern (one or two digits, slash, one or two digits,
slash, four digits) at the current position, greedy with backtracking. -/
def matchDateAt (s : List Char) : Option (List Char) := do
  let (mth, r1) ← matchD12Slash s
  let (dy, r2) ← matchD12Slash r1
  let (yr, _) ← matchD4 r2
  pure (mth ++ dy ++ yr)

/-- Leftmost search worker for the date pattern. -/
def findDateGo : List Char → Option String
  | [] => none
  | c :: cs => ((matchDateAt (c :: cs)).map String.mk).orElse (fun _ => findDateGo cs)

/-- Leftmost date-pattern occurrence in a line, as the entry detector of the
single-line parser uses. -/
def findDateA (s : String) : Option String :=
  findDateGo s.data

/-- Hours pattern of the single-line parser applied to the text after the
date: optional whitespace, one or more digits, an optional point, optional
further digits. -/
def parseHoursAfterDate (s : String) : Option DecVal :=
  let cs := s.data.dropWhile jsIsSpace
  let ip := cs.takeWhile jsIsDigit
  let r := cs.drop ip.length
  if ip = [] then none
  else
    match r with
    | '.' :: r2 => some (decOfDigits ip (r2.takeWhile jsIsDigit))
    | _ => some (decOfDigits ip [])

/-- Attempt the word-bounded fallback hours pattern (digits, point, exactly
two digits, within word boundaries) at one position, the previous character
given for the left boundary test. -/
def matchHoursWBAt (prev : Option Char) (s : List Char) : Option DecVal :=
  if (match prev with | none => true | some p => ¬ jsIsWord p) then
    let ip := s.takeWhile jsIsDigit
    let r := s.drop ip.length
    if ip ≠ [] then
      match r with
      | '.' :: a :: b :: r3 =>
        if jsIsDigit a && jsIsDigit b &&
           (match r3 with | [] => true | c :: _ => ¬ jsIsWord c) then
          some (decOfDigits ip [a, b])
        else none
      | _ => none
    else none
  else none

/-- Leftmost occurrence of the word-bounded fallback hours pattern. -/
def searchHoursWB : Option Char → List Char → Option DecVal
  | _, [] => none
  | prev, c :: cs =>
    (matchHoursWBAt prev (c :: cs)).orElse (fun _ => searchHoursWB (some c) cs)

/-- Job code pattern of the single-line parser: an opening parenthesis at the
start, one or more characters other than the closing parenthesis, a closing
parenthesis.  Returns the inner group and the full match length. -/
def jobCodeMatchA (s : String) : Option (String × Nat) :=
  match s.data with
  | '(' :: rest =>
    let inner := rest.takeWhile (fun c => c ≠ ')')
    let after := rest.drop inner.length
    if inner ≠ [] then
      match after with
      | ')' :: _ => some (String.mk inner, inner.length + 2)
      | _ => none
    else none
  | _ => none

/-- Pay types recognised by the single-line entry parser, in search order. -/
def payTypesList : List String :=
  ["Regular", "Overtime", "Double Time", "Call", "Unapplied", "OTClearing"]

/-- Labor rates recognised by the single-line entry parser, already in the
order produced by the stable length-descending sort the source performs. -/
def laborRatesSorted : List String :=
  ["Sch MN PM Tech",
   "SCH_MN PMTECH", "WN MN PM TECH",
   "SCH_MNTECH", "SCH_PMTECH", "WN MN TECH", "WN PM TECH",
   "MN PMTECH", "SCHTECHNB", "WN TECHNB", "MN PMTECH",
   "SCH_TECH",
   "WN TECH",
   "TechOT", "TechNB", "PMTECH", "MNTech",
   "Tech", "PREM", "SHOP"]

/-- Cost codes recognised by the single-line entry parser, in search order. -/
def costCodesList : List String :=
  ["SERVICE", "INSTALL", "PM", "PMF", "FTPM", "SHMTL", "RETAIL"]

/-- Cost categories recognised by the single-line entry parser, in search
order. -/
def costCategoriesList : List String :=
  ["DirLab", "TechUnapplyd", "TechUnapplied", "Office", "CLEARING"]

/-- Word-boundary search worker: scan positions keeping the previous
character for the left boundary test. -/
def wbGo (code : List Char) : Option Char → List Char → Bool
  | prev, c :: cs =>
    (listIsPre code (c :: cs) &&
     (match prev with | none => true | some p => ¬ jsIsWord p) &&
     (match (c :: cs).drop code.length with
      | [] => true
      | d :: _ => ¬ jsIsWord d)) ||
    wbGo code (some c) cs
  | _, [] => false

/-- Whether a code occurs in the line within word boundaries, as the
word-bounded cost code regex of the single-line parser tests. -/
def wordBoundedOccur (code : String) (line : String) : Bool :=
  wbGo code.data none line.data

/-- First element of the list contained in the line, or the default. -/
def firstContained (line : String) (l : List String) (dflt : String) : String :=
  match l.find? (fun pat => strContainsStr line pat) with
  | some x => x
  | none => dflt

/-- Parse one single-line time entry given the line and the date string found
in it, mirroring the single-line parser.  An entry is produced only when the
extracted hours value is strictly positive. -/
def parseTimeEntryA (line : String) (dateStr : String) : Option TimeEntry :=
  if dateStr = "" then none
  else
    let idx : Int := match indexOfStr line dateStr with
      | some i => (i : Int)
      | none => -1
    let startPos : Nat := (max 0 (idx + (dateStr.data.length : Int))).toNat
    let afterDate := String.mk (line.data.drop startPos)
    let hours : DecVal :=
      match parseHoursAfterDate afterDate with
      | some h => h
      | none =>
        match searchHoursWB none line.data with
        | some h => h
        | none => ⟨0, 0⟩
    let payType := firstContained line payTypesList "Regular"
    let laborRate := firstContained line laborRatesSorted "Tech"
    let costCode :=
      match costCodesList.find? (fun c => wordBoundedOccur c line) with
      | some c => c
      | none => "SERVICE"
    let costCategory :=
      match costCategoriesList.find? (fun c => strContainsStr line c) with
      | some c => if c = "TechUnapplied" then "TechUnapplyd" else c
      | none => "DirLab"
    let jobInfo := jobCodeMatchA line
    let jobCode := match jobInfo with
      | some p => p.1
      | none => ""
    let jobDescription := match jobInfo with
      | some p =>
        let afterJobCode := String.mk (line.data.drop p.2)
        jsTrim ((splitOnStr afterJobCode dateStr).headD "")
      | none => ""
    let parts := splitOnStr line " - "
    let description :=
      if parts.length > 1 then jsTrim (parts.getLastD "") else ""
    if 0 < hours.num then
      some { jobCode := jobCode, jobDescription := jobDescription,
             date := dateStr, hours := hours, payType := payType,
             laborRate := laborRate, costCode := costCode,
             costCategory := costCategory, description := description,
             originalLine := jsTrim line }
    else none

/-! ### The scanning state machine of the parsers -/

/-- Scan state of the line-by-line parsers. -/
structure ParseState where
  currentEmp : Option (String × String) := none
  buffer : List TimeEntry := []
  payPeriodId : Option String := none
  reportDate : Option String := none
  out : List TimeEntry := []
deriving DecidableEq, Repr

/-- Initial scan state. -/
def initState : ParseState := {}

/-- Stamp a buffered entry with the employee and document context, as the
flush loops of the source do. -/
def stampEntry (nm ident : String) (pp rd : Option String) (e : TimeEntry) : TimeEntry :=
  { e with employeeName := nm, employeeId := ident,
           payPeriodId := pp, reportDate := rd }

/-- Flush the buffered entries of the current employee into the output. -/
def flushState (st : ParseState) : ParseState :=
  match st.currentEmp with
  | some (nm, ident) =>
    { st with out := st.out ++ st.buffer.map (stampEntry nm ident st.payPeriodId st.reportDate),
              buffer := [] }
  | none => st

/-- Pay period marker handling shared by both parsers. -/
def payPeriodUpd (st : ParseState) (t : String) : ParseState :=
  if strContainsStr t "Pay Period Id:" then
    match payPeriodCapture t with
    | some p => { st with payPeriodId := some p }
    | none => st
  else st

/-- Report date marker handling shared by both parsers: only the first
occurrence in the document is kept. -/
def reportDateUpd (st : ParseState) (t : String) : ParseState :=
  if st.reportDate = none then
    match searchReportDate t with
    | some d => { st with reportDate := some d }
    | none => st
  else st

/-- Employee header handling shared by both parsers: flush the previous
employee when it has buffered entries, then start the new employee. -/
def newEmp (st : ParseState) (nm ident : String) : ParseState :=
  let st1 := if st.currentEmp.isSome ∧ st.buffer ≠ [] then flushState st else st
  { st1 with currentEmp := some (nm, ident), buffer := [] }

/-- Entry detection of the single-line parser on one line. -/
def entryUpdA (st : ParseState) (t : String) : ParseState :=
  if st.currentEmp.isSome then
    match findDateA t with
    | some ds =>
      if ¬ strContainsStr t "Employee Totals" ∧ ¬ strContainsStr t "Report Totals" then
        match parseTimeEntryA t ds with
        | some en => { st with buffer := st.buffer ++ [en] }
        | none => st
      else st
    | none => st
  else st

/-- Employee totals handling shared by both parsers: flush when an employee
with buffered entries is current, then leave the employee section. -/
def etUpd (st : ParseState) (t : String) : ParseState :=
  if strContainsStr t "Employee Totals" then
    let st1 := if st.currentEmp.isSome ∧ st.buffer ≠ [] then flushState st else st
    { st1 with currentEmp := none, buffer := [] }
  else st

/-- One scan step of the single-line parser.  The boolean is the stop signal
raised by the report totals marker. -/
def stepA (st : ParseState) (line : String) : ParseState × Bool :=
  let t := jsTrim line
  if t = "" then (st, false)
  else
    let st2 := reportDateUpd (payPeriodUpd st t) t
    match employeeHeaderMatchA t with
    | some (nm, ident) => (newEmp st2 nm ident, false)
    | none =>
      let st3 := entryUpdA st2 t
      let st4 := etUpd st3 t
      (st4, strContainsStr t "Report Totals")

/-- Run the single-line parser over the lines, stopping at the stop signal. -/
def runA (st : ParseState) : List String → ParseState
  | [] => st
  | l :: ls =>
    let r := stepA st l
    if r.2 then r.1 else runA r.1 ls

/-- Final flush after the scan, covering a report without a trailing employee
totals line. -/
def finalFlush (st : ParseState) : ParseState :=
  if st.currentEmp.isSome ∧ st.buffer ≠ [] then flushState st else st

/-- The single-line parser: split the text into lines, scan, flush. -/
def parseEmployeeDataA (text : String) : List TimeEntry :=
  (finalFlush (runA initState (splitLinesStr text))).out

/-! ### The four-line parser -/

/-- Tail of the unanchored employee header pattern of the four-line parser:
one or more whitespace characters, a hyphen, one or more whitespace
characters, one or more digits.  Returns the digit group. -/
def headerTailB (s : List Char) : Option (List Char) :=
  match s with
  | c :: cs =>
    if jsIsSpace c then
      match cs.dropWhile jsIsSpace with
      | '-' :: r2 =>
        match r2 with
        | d :: r3 =>
          if jsIsSpace d then
            let ds := (r3.dropWhile jsIsSpace).takeWhile jsIsDigit
            if ds ≠ [] then some ds else none
          else none
        | [] => none
      | _ => none
    else none
  | [] => none

/-- Lazy scan for the employee header of the four-line parser. -/
def empHeaderGoB : List Char → List Char → Option (List Char × List Char)
  | _, [] => none
  | nameRev, c :: cs =>
    if nameClassChar c then
      match headerTailB cs with
      | some ds => some ((c :: nameRev).reverse, ds)
      | none => empHeaderGoB (c :: nameRev) cs
    else none

/-- Employee header match of the four-line parser, returning the trimmed name
and the identifier digits. -/
def employeeHeaderMatchB (t : String) : Option (String × String) :=
  (empHeaderGoB [] t.data).map fun p => (jsTrim (String.mk p.1), String.mk p.2)

/-- Employee header condition of the four-line parser: the header pattern
matches and the line contains neither the word Date nor the word Hours. -/
def headerCondB (t : String) : Option (String × String) :=
  match employeeHeaderMatchB t with
  | some p =>
    if ¬ strContainsStr t "Date" ∧ ¬ strContainsStr t "Hours" then some p else none
  | none => none

/-- Job code pattern of the four-line parser: either a parenthesised group
starting with a capital letter, or a run of capital letters followed by a
closing parenthesis.  Returns the code group and the rest of the line. -/
def jobCodeMatchB (t : String) : Option (String × String) :=
  let alt1 : Option (String × String) :=
    match t.data with
    | '(' :: rest =>
      (match rest with
       | c :: _ =>
         if 'A' ≤ c ∧ c ≤ 'Z' then
           let inner := rest.takeWhile (fun ch => ch ≠ ')')
           match rest.drop inner.length with
           | ')' :: r => some (String.mk inner, String.mk r)
           | _ => none
         else none
       | [] => none)
    | _ => none
  let alt2 : Option (String × String) :=
    let caps := t.data.takeWhile (fun ch => 'A' ≤ ch ∧ ch ≤ 'Z')
    if caps ≠ [] then
      match t.data.drop caps.length with
      | ')' :: r => some (String.mk caps, String.mk r)
      | _ => none
    else none
  alt1.orElse (fun _ => alt2)

/-- Anchored date pattern of the four-line parser: the whole line is one or
two digits, a slash, one or two digits, a slash, four digits. -/
def dateFullMatch (s : String) : Bool :=
  match splitOnStr s "/" with
  | [ms, ds, ys] =>
    ms.data ≠ [] && ms.data.length ≤ 2 && ms.data.all jsIsDigit &&
    ds.data ≠ [] && ds.data.length ≤ 2 && ds.data.all jsIsDigit &&
    ys.data.length = 4 && ys.data.all jsIsDigit
  | _ => false

/-- Anchored hours pattern of the four-line parser: one or more digits, an
optional fraction of a point and one or more digits, optional trailing
whitespace. -/
def parseHoursB (s : String) : Option DecVal :=
  let cs := s.data
  let ip := cs.takeWhile jsIsDigit
  let r := cs.drop ip.length
  if ip = [] then none
  else
    match r with
    | [] => some (decOfDigits ip [])
    | '.' :: r2 =>
      let fp := r2.takeWhile jsIsDigit
      let r3 := r2.drop fp.length
      if fp ≠ [] ∧ r3.dropWhile jsIsSpace = [] then some (decOfDigits ip fp)
      else none
    | r1 => if r1.dropWhile jsIsSpace = [] then some (decOfDigits ip []) else none

/-- Field of the dash-separated detail tuple with its positional default, an
empty field falling back to the default as the falsy-or of the source does. -/
def partDefault (parts : List String) (i : Nat) (dflt : String) : String :=
  match parts.get? i with
  | some s => if s = "" then dflt else s
  | none => dflt

/-- Build the four-line entry from the job code line and the three lookahead
lines (already trimmed). -/
def mkEntryB (jc jdesc d _h det : String) (hours : DecVal) : TimeEntry :=
  let parts := (splitOnStr det " - ").map jsTrim
  { jobCode := jc, jobDescription := jsTrim jdesc, date := d, hours := hours,
    payType := partDefault parts 0 "Regular",
    laborRate := partDefault parts 1 "Tech",
    costCode := partDefault parts 2 "SERVICE",
    costCategory := partDefault parts 3 "DirLab",
    description := partDefault parts 4 "",
    originalLine := "" }

/-- Whether a line is a Source or Labor noise line. -/
def isSourceLaborLine (x : String) : Bool :=
  jsTrim x == "Source" || strStarts (jsTrim x) "Labor"

/-- Whether a line is all digits after trimming (the numeric noise line). -/
def isNumericLine (y : String) : Bool :=
  (jsTrim y).data ≠ [] && (jsTrim y).data.all jsIsDigit

/-- How many noise lines follow a consumed four-line entry: one optional
Source or Labor line, then one optional all-digits line. -/
def noiseCount : List String → Nat
  | [] => 0
  | x :: xs =>
    if isSourceLaborLine x then
      1 + (match xs with | y :: _ => if isNumericLine y then 1 else 0 | [] => 0)
    else if isNumericLine x then 1 else 0

/-- Skip the optional noise lines following a consumed four-line entry. -/
def skipNoiseB (r : List String) : List String :=
  r.drop (noiseCount r)

/-- Run the four-line parser over the lines.  The four-line window is
consumed together with its noise lines; the employee totals and report
totals tests still apply to the job code line of a consumed window.  The
fuel argument is a structural-recursion bound; the caller passes one more
than the number of lines, which always suffices because each step consumes
at least one line. -/
def runB : Nat → ParseState → List String → ParseState
  | _, st, [] => st
  | 0, st, _ => st
  | fuel + 1, st, l :: rest =>
    let t := jsTrim l
    if t = "" then runB fuel st rest
    else
      let st2 := reportDateUpd (payPeriodUpd st t) t
      match headerCondB t with
      | some (nm, ident) => runB fuel (newEmp st2 nm ident) rest
      | none =>
        match st2.currentEmp, jobCodeMatchB t, rest with
        | some _, some (jc, jdesc), a :: b :: c :: rest3 =>
          let d := jsTrim a
          let h := jsTrim b
          let det := jsTrim c
          if dateFullMatch d ∧ (parseHoursB h).isSome ∧ strContainsStr det " - " then
            let hours := (parseHoursB h).getD ⟨0, 0⟩
            let en := { mkEntryB jc jdesc d h det hours with
                        originalLine := t ++ " " ++ d ++ " " ++ h ++ " " ++ det }
            let st3 := { st2 with buffer := st2.buffer ++ [en] }
            let st4 := etUpd st3 t
            if strContainsStr t "Report Totals" then st4
            else runB fuel st4 (skipNoiseB rest3)
          else
            let st4 := etUpd st2 t
            if strContainsStr t "Report Totals" then st4
            else runB fuel st4 (a :: b :: c :: rest3)
        | _, _, r =>
          let st4 := etUpd st2 t
          if strContainsStr t "Report Totals" then st4 else runB fuel st4 r

/-- The four-line parser: split the text into lines, scan, flush. -/
def parseEmployeeDataB (text : String) : List TimeEntry :=
  let lines := splitLinesStr text
  (finalFlush (runB (lines.length + 1) initState lines)).out

/-! ### Specification-side definitions for the refinement claims -/

/-- The Sunday PREM rewrite table exactly as the specification words it:
WN prefixed rates go to WN PREM, SCH prefixed (underscore or space) rates to
SCH PREM, MN or MNTECH prefixed rates to MN PREM, anything else to PREM; the
prefixes are recognised on the uppercased current rate. -/
def premVariantSpec (laborRate : String) : String :=
  let cur := strUpper laborRate
  if strStarts cur "WN " then "WN PREM"
  else if strStarts cur "SCH_" || strStarts cur "SCH " then "SCH PREM"
  else if strStarts cur "MN " || strStarts cur "MNTECH" then "MN PREM"
  else "PREM"

/-- The Call overtime rewrite table exactly as the specification words it,
read as an ordered first-match table on the uppercased current rate:
WN MN to WN MN TECHOT, WN to WN TECHOT, SCH_MN to SCH_MNTECHOT, SCH_ or SCH
to SCH_TECHOT, MN or the exact rate MNTECH to MN TECHOT, the exact rate TECH
to TechOT, a rate containing HELPER to the matching branch-prefixed HELPEROT
variant, and TechOT by default. -/
def callOvertimeSpec (laborRate : String) : String :=
  let cur := strUpper laborRate
  if strStarts cur "WN MN " then "WN MN TECHOT"
  else if strStarts cur "WN " then "WN TECHOT"
  else if strStarts cur "SCH_MN" then "SCH_MNTECHOT"
  else if strStarts cur "SCH_" || strStarts cur "SCH " then "SCH_TECHOT"
  else if strStarts cur "MN " || cur == "MNTECH" then "MN TECHOT"
  else if cur == "TECH" then "TechOT"
  else if strContainsStr cur "HELPER" then
    (if strStarts cur "WN " then "WN HELPEROT"
     else if strStarts cur "SCH" then "SCH_HELPEROT"
     else if strStarts cur "MN " then "MN HELPEROT"
     else "HELPEROT")
  else "TechOT"

/-- Agreement of two entries on every field other than payType and
laborRate. -/
def sameFrame (a b : TimeEntry) : Prop :=
  a.employeeName = b.employeeName ∧ a.employeeId = b.employeeId ∧
  a.jobCode = b.jobCode ∧ a.jobDescription = b.jobDescription ∧
  a.date = b.date ∧ a.hours = b.hours ∧
  a.costCode = b.costCode ∧ a.costCategory = b.costCategory ∧
  a.description = b.description ∧ a.payPeriodId = b.payPeriodId ∧
  a.reportDate = b.reportDate ∧ a.originalLine = b.originalLine

/-! ### Concrete example inputs -/

/-- An entry on which the seven-rule pipeline is not idempotent: the cost
category triggers rule 1 while the Sunday date triggers rule 4, so the two
rules keep overwriting the pay type across runs. -/
def entIdem : TimeEntry :=
  { costCategory := "TechUnapplyd", payType := "Regular", date := "08/03/2025",
    laborRate := "Tech", costCode := "SHMTL" }

/-- A witness entry for the restricted idempotence statement: weekday date,
cost code outside the rule 2, rule 3 and rule 7 trigger sets, while rules 1
and 6 both fire on the first run. -/
def entIdemW : TimeEntry :=
  { costCategory := "TechUnapplyd", payType := "Call", date := "08/04/2025",
    laborRate := "WN TECH", costCode := "SHMTL", description := "no bill call out" }

/-- Four-line-layout input whose hours line is the single digit zero; the
four-line parser keeps the resulting entry. -/
def txtHoursB : String :=
  "Jane Doe - 202\n" ++
  "(J1)work\n" ++
  "08/04/2025\n" ++
  "0\n" ++
  "Regular - Tech - SERVICE - DirLab - d\n" ++
  "Employee Totals"

/-- Witness entry for the Sunday rule: dated Sunday 08/03/2025 with Regular
pay and the SCH_TECH rate. -/
def entSunday : TimeEntry :=
  { date := "08/03/2025", payType := "Regular", laborRate := "SCH_TECH" }

/-- Two-employee input in the single-line layout for the grouping claim. -/
def txtGrouping : String :=
  "John Smith - 101\n" ++
  "(J100)Install work 08/04/2025 8.00 - Regular - Tech - SERVICE - DirLab - Work done\n" ++
  "(J101)Service call 08/05/2025 4.50 - Regular - Tech - SERVICE - DirLab - More work\n" ++
  "Employee Totals 12.50\n" ++
  "Jane Doe - 202\n" ++
  "(J102)PM visit 08/04/2025 6.00 - Regular - Tech - SERVICE - DirLab - Stuff\n" ++
  "(J103)Repair 08/05/2025 2.00 - Regular - Tech - SERVICE - DirLab - Things\n" ++
  "Employee Totals 8.00\n" ++
  "Report Totals 20.50"

/-- Witness entry for the Call overtime rule: Call pay with the WN TECH
rate. -/
def entCall : TimeEntry :=
  { payType := "Call", laborRate := "WN TECH" }

/-- A TechUnapplyd Call entry dated on a Sunday: rule 4 overrides the pay
type that rule 1 set, so the final pay type is not Unapplied. -/
def entPrecBad : TimeEntry :=
  { costCategory := "TechUnapplyd", payType := "Call", date := "08/03/2025",
    laborRate := "Tech", costCode := "SHMTL" }

/-- Witness entry for the restricted rule 1 precedence statement: weekday
date and non-office cost code. -/
def entPrecOk : TimeEntry :=
  { costCategory := "TechUnapplyd", payType := "Call", date := "08/04/2025",
    laborRate := "Tech", costCode := "SERVICE" }

/-- An entry whose description carries the no bill marker while its labor
rate is outside the rule 6 mapping: validation reports an issue yet the
correction pipeline records no change. -/
def entNoBill : TimeEntry :=
  { description := "no bill visit", laborRate := "FOO", payType := "Regular",
    costCode := "SHMTL", costCategory := "DirLab", date := "08/04/2025" }

/-- A fully compliant entry: validation returns no issues and the pipeline
records no changes. -/
def entClean : TimeEntry :=
  { payType := "Regular", laborRate := "Tech", costCode := "SERVICE",
    costCategory := "DirLab", date := "08/04/2025", description := "" }

/-- Input whose first line contains the report totals marker but also
matches the employee header pattern; the header branch of the scan loop
continues past it, so a later entry line is still parsed. -/
def txtTrunc : String :=
  "Report Totals - 5\n" ++
  "John Smith - 101\n" ++
  "(J1)x 08/04/2025 8.00 - Regular - Tech - SERVICE - DirLab - d"

/-- Lines before the report totals line in the truncation witness. -/
def linesPreW : List String :=
  ["John Smith - 101",
   "(J200)Fix 08/04/2025 5.00 - Regular - Tech - SERVICE - DirLab - w"]

/-- The report totals line of the truncation witness. -/
def rtLineW : String := "Report Totals 5.00"

/-- Lines after the report totals line in the truncation witness; they look
like valid entries but are never parsed. -/
def linesSuffW : List String :=
  ["Jane Doe - 202",
   "(J201)More 08/05/2025 3.00 - Regular - Tech - SERVICE - DirLab - x"]

/-! ### Shape lemmas: each rule rewrites at most payType and laborRate -/

theorem rule1_shape (e : TimeEntry) :
    ∃ p, (applyRule1_TechUnapplied e).1 = { e with payType := p } := by
  unfold applyRule1_TechUnapplied
  split
  · exact ⟨"Unapplied", rfl⟩
  · exact ⟨e.payType, rfl⟩

theorem rule2_shape (e : TimeEntry) :
    ∃ l, (applyRule2_ServiceInstallRates e).1 = { e with laborRate := l } := by
  unfold applyRule2_ServiceInstallRates
  dsimp only
  split
  · exact ⟨"Tech", rfl⟩
  · exact ⟨e.laborRate, rfl⟩

theorem rule3_shape (e : TimeEntry) :
    ∃ l, (applyRule3_PMRates e).1 = { e with laborRate := l } := by
  unfold applyRule3_PMRates
  dsimp only
  split
  · exact ⟨"PMTECH", rfl⟩
  · exact ⟨e.laborRate, rfl⟩

theorem rule4_shape (e : TimeEntry) :
    ∃ p l, (applyRule4_SundayPremium e).1 = { e with payType := p, laborRate := l } := by
  unfold applyRule4_SundayPremium
  split
  · dsimp only
    split <;> dsimp only <;> split
    · exact ⟨"Double Time", _, rfl⟩
    · exact ⟨"Double Time", e.laborRate, rfl⟩
    · exact ⟨e.payType, _, rfl⟩
    · exact ⟨e.payType, e.laborRate, rfl⟩
  · exact ⟨e.payType, e.laborRate, rfl⟩

theorem rule5_shape (e : TimeEntry) :
    ∃ l, (applyRule5_CallWork e).1 = { e with laborRate := l } := by
  unfold applyRule5_CallWork
  split
  · dsimp only
    split
    · exact ⟨e.laborRate, rfl⟩
    · split
      · exact ⟨_, rfl⟩
      · exact ⟨e.laborRate, rfl⟩
  · exact ⟨e.laborRate, rfl⟩

theorem rule6_shape (e : TimeEntry) :
    ∃ l, (applyRule6_NoBillDetection e).1 = { e with laborRate := l } := by
  unfold applyRule6_NoBillDetection
  split
  · split
    · exact ⟨e.laborRate, rfl⟩
    · dsimp only
      split
      · exact ⟨_, rfl⟩
      · exact ⟨e.laborRate, rfl⟩
  · exact ⟨e.laborRate, rfl⟩

theorem rule7_shape (e : TimeEntry) :
    ∃ p, (applyRule7_OfficeOverride e).1 = { e with payType := p } := by
  unfold applyRule7_OfficeOverride
  dsimp only
  split
  · exact ⟨"Regular", rfl⟩
  · exact ⟨e.payType, rfl⟩

/-! ### No-op lemmas for guarded rules -/

theorem rule1_noop (e : TimeEntry)
    (h : e.costCategory ≠ "TechUnapplyd" ∨ e.payType = "Unapplied") :
    applyRule1_TechUnapplied e = (e, []) := by
  unfold applyRule1_TechUnapplied
  rw [if_neg]
  rintro ⟨h1, h2⟩
  rcases h with h | h
  · exact h h1
  · exact h2 h

theorem rule1_fires (e : TimeEntry)
    (h1 : e.costCategory = "TechUnapplyd") (h2 : e.payType ≠ "Unapplied") :
    applyRule1_TechUnapplied e =
      ({ e with payType := "Unapplied" },
       [mkChange e "payType" e.payType "Unapplied"
          "Rule 1: TechUnapplied → Unapplied Pay Type"
          "Cost Category is TechUnapplyd, so Pay Type must be Unapplied"]) := by
  unfold applyRule1_TechUnapplied
  rw [if_pos ⟨h1, h2⟩]

theorem rule1_payType_post (e : TimeEntry) (h : e.costCategory = "TechUnapplyd") :
    (applyRule1_TechUnapplied e).1.payType = "Unapplied" := by
  unfold applyRule1_TechUnapplied
  split
  · rfl
  · rename_i hn
    by_contra hne
    exact hn ⟨h, hne⟩

theorem rule2_noop (e : TimeEntry)
    (h1 : strUpper e.costCode ≠ "SERVICE") (h2 : strUpper e.costCode ≠ "INSTALL") :
    applyRule2_ServiceInstallRates e = (e, []) := by
  unfold applyRule2_ServiceInstallRates
  dsimp only
  rw [if_neg]
  rintro ⟨h3 | h3, -⟩
  · exact h1 h3
  · exact h2 h3

theorem rule3_noop (e : TimeEntry)
    (h1 : strUpper e.costCode ≠ "PM") (h2 : strUpper e.costCode ≠ "PMF")
    (h3 : strUpper e.costCode ≠ "FTPM") :
    applyRule3_PMRates e = (e, []) := by
  unfold applyRule3_PMRates
  dsimp only
  rw [if_neg]
  rintro ⟨h4 | h4 | h4, -⟩
  · exact h1 h4
  · exact h2 h4
  · exact h3 h4

theorem rule4_noop (e : TimeEntry) (h : isSundayDate e.date = false) :
    applyRule4_SundayPremium e = (e, []) := by
  unfold applyRule4_SundayPremium
  rw [if_neg]
  simp [h]

theorem rule5_noop_notCall (e : TimeEntry) (h : e.payType ≠ "Call") :
    applyRule5_CallWork e = (e, []) := by
  unfold applyRule5_CallWork
  rw [if_neg h]

theorem rule5_noop_OT (e : TimeEntry)
    (h : strContainsStr (strUpper e.laborRate) "OT" = true) :
    applyRule5_CallWork e = (e, []) := by
  unfold applyRule5_CallWork
  split
  · dsimp only
    rw [if_pos h]
  · rfl

theorem rule6_noop_noMarker (e : TimeEntry)
    (h : e.description = "" ∨ strContainsStr (strLower e.description) "no bill" = false) :
    applyRule6_NoBillDetection e = (e, []) := by
  unfold applyRule6_NoBillDetection
  rw [if_neg]
  rintro ⟨h1, h2⟩
  rcases h with h | h
  · exact h1 h
  · rw [h] at h2
    cases h2

theorem rule7_noop (e : TimeEntry)
    (h : OFFICE_COST_CODES.contains (strUpper e.costCode) = false) :
    applyRule7_OfficeOverride e = (e, []) := by
  unfold applyRule7_OfficeOverride
  dsimp only
  rw [if_neg]
  rintro ⟨h1, -⟩
  rw [h] at h1
  cases h1

/-! ### Output facts about the rewrite tables -/

theorem rule5OvertimeRate_hasOT (cur : String) :
    strContainsStr (strUpper (rule5OvertimeRate cur)) "OT" = true := by
  unfold rule5OvertimeRate
  repeat' split
  all_goals decide

theorem rule4PremRate_hasPREM (cur : String) :
    strContainsStr (strUpper (rule4PremRate cur)) "PREM" = true := by
  unfold rule4PremRate
  repeat' split
  all_goals decide

theorem rule4PremRate_ne_empty (cur : String) : rule4PremRate cur ≠ "" := by
  unfold rule4PremRate
  repeat' split
  all_goals decide

theorem rule6NoBillRate_cases (r : String) :
    rule6NoBillRate r = r ∨ strEnds (strUpper (rule6NoBillRate r)) "NB" = true := by
  unfold rule6NoBillRate
  repeat' split
  all_goals first
    | (left; rfl)
    | (right; decide)

theorem rule6NoBillRate_of_OT (r : String)
    (h : strContainsStr (strUpper r) "OT" = true) : rule6NoBillRate r = r := by
  unfold rule6NoBillRate
  split_ifs with h1 h2 h3 h4 h5 h6 h7 h8 h9 h10 h11 h12 <;>
    first
      | rfl
      | (exfalso
         first
           | (rw [h2] at h; exact absurd h (by decide))
           | (rw [h3] at h; exact absurd h (by decide))
           | (rw [h4] at h; exact absurd h (by decide))
           | (rw [h6] at h; exact absurd h (by decide))
           | (rw [h7] at h; exact absurd h (by decide))
           | (rw [h8] at h; exact absurd h (by decide))
           | (rw [h9] at h; exact absurd h (by decide))
           | (rw [h10] at h; exact absurd h (by decide))
           | (rw [h11] at h; exact absurd h (by decide))
           | (rw [h12] at h; exact absurd h (by decide)))

/-! ### Behavioural lemmas for rules 5 and 6 -/

theorem rule5_post_OT (e : TimeEntry) (hp : e.payType = "Call") :
    strContainsStr (strUpper (applyRule5_CallWork e).1.laborRate) "OT" = true := by
  unfold applyRule5_CallWork
  rw [if_pos hp]
  dsimp only
  split
  · assumption
  · split
    · exact rule5OvertimeRate_hasOT _
    · rename_i hne
      rw [not_not.mp hne]
      exact rule5OvertimeRate_hasOT _

theorem rule6_rate_of_OT (e : TimeEntry)
    (h : strContainsStr (strUpper e.laborRate) "OT" = true) :
    (applyRule6_NoBillDetection e).1.laborRate = e.laborRate := by
  unfold applyRule6_NoBillDetection
  split
  · split
    · rfl
    · dsimp only
      split
      · rename_i hchg
        exact absurd (rule6NoBillRate_of_OT e.laborRate h) hchg
      · rfl
  · rfl

theorem rule6_noop_early (e : TimeEntry)
    (hg : e.description ≠ "" ∧ strContainsStr (strLower e.description) "no bill" = true)
    (he : e.laborRate = "" ∨ strEnds (strUpper e.laborRate) "NB" = true) :
    applyRule6_NoBillDetection e = (e, []) := by
  unfold applyRule6_NoBillDetection
  rw [if_pos hg, if_pos he]

theorem rule6_noop_unmapped (e : TimeEntry)
    (hg : e.description ≠ "" ∧ strContainsStr (strLower e.description) "no bill" = true)
    (he : ¬ (e.laborRate = "" ∨ strEnds (strUpper e.laborRate) "NB" = true))
    (hc : rule6NoBillRate e.laborRate = e.laborRate) :
    applyRule6_NoBillDetection e = (e, []) := by
  unfold applyRule6_NoBillDetection
  rw [if_pos hg, if_neg he]
  dsimp only
  rw [if_neg (not_not.mpr hc)]

theorem rule6_fires (e : TimeEntry)
    (hg : e.description ≠ "" ∧ strContainsStr (strLower e.description) "no bill" = true)
    (he : ¬ (e.laborRate = "" ∨ strEnds (strUpper e.laborRate) "NB" = true))
    (hc : rule6NoBillRate e.laborRate ≠ e.laborRate) :
    applyRule6_NoBillDetection e =
      ({ e with laborRate := rule6NoBillRate e.laborRate },
       [mkChange e "laborRate" e.laborRate (rule6NoBillRate e.laborRate)
          "Rule 6: No Bill Detection"
          "Description contains \"No Bill\" - adding NB suffix to labor rate"]) := by
  unfold applyRule6_NoBillDetection
  rw [if_pos hg, if_neg he]
  dsimp only
  rw [if_pos hc]

theorem rule6_twice (x : TimeEntry) :
    (applyRule6_NoBillDetection ((applyRule6_NoBillDetection x).1)).2 = [] := by
  by_cases hg : x.description ≠ "" ∧ strContainsStr (strLower x.description) "no bill" = true
  · by_cases he : x.laborRate = "" ∨ strEnds (strUpper x.laborRate) "NB" = true
    · simp only [rule6_noop_early x hg he]
    · by_cases hc : rule6NoBillRate x.laborRate = x.laborRate
      · simp only [rule6_noop_unmapped x hg he hc]
      · rw [rule6_fires x hg he hc]
        dsimp only
        have hnb : strEnds (strUpper (rule6NoBillRate x.laborRate)) "NB" = true :=
          (rule6NoBillRate_cases x.laborRate).resolve_left hc
        rw [rule6_noop_early _ (by exact ⟨hg.1, hg.2⟩) (Or.inr hnb)]
  · have hx : x.description = "" ∨ strContainsStr (strLower x.description) "no bill" = false := by
      rcases not_and_or.mp hg with h | h
      · exact Or.inl (not_not.mp h)
      · exact Or.inr (by simpa using h)
    simp only [rule6_noop_noMarker x hx]

/-! ### Stability lemmas: the state each rule leaves no longer triggers it -/

theorem rule1_post_stable (e : TimeEntry) :
    (applyRule1_TechUnapplied e).1.costCategory ≠ "TechUnapplyd" ∨
    (applyRule1_TechUnapplied e).1.payType = "Unapplied" := by
  by_cases hcat : e.costCategory = "TechUnapplyd"
  · exact Or.inr (rule1_payType_post e hcat)
  · obtain ⟨p, h⟩ := rule1_shape e
    rw [h]
    exact Or.inl hcat

theorem rule5_post_stable (e : TimeEntry) :
    (applyRule5_CallWork e).1.payType ≠ "Call" ∨
    strContainsStr (strUpper (applyRule5_CallWork e).1.laborRate) "OT" = true := by
  by_cases hpt : e.payType = "Call"
  · exact Or.inr (rule5_post_OT e hpt)
  · obtain ⟨l, h⟩ := rule5_shape e
    rw [h]
    exact Or.inl hpt

theorem rule5_noop_stable (e : TimeEntry)
    (h : e.payType ≠ "Call" ∨ strContainsStr (strUpper e.laborRate) "OT" = true) :
    applyRule5_CallWork e = (e, []) := by
  rcases h with h | h
  · exact rule5_noop_notCall e h
  · exact rule5_noop_OT e h

theorem rule6_noop_stable (e : TimeEntry)
    (h : (e.description = "" ∨ strContainsStr (strLower e.description) "no bill" = false) ∨
         (e.laborRate = "" ∨ strEnds (strUpper e.laborRate) "NB" = true) ∨
         rule6NoBillRate e.laborRate = e.laborRate) :
    applyRule6_NoBillDetection e = (e, []) := by
  by_cases hg : e.description ≠ "" ∧ strContainsStr (strLower e.description) "no bill" = true
  · rcases h with h | h | h
    · rcases h with h | h
      · exact absurd h hg.1
      · rw [hg.2] at h
        cases h
    · exact rule6_noop_early e hg h
    · by_cases he : e.laborRate = "" ∨ strEnds (strUpper e.laborRate) "NB" = true
      · exact rule6_noop_early e hg he
      · exact rule6_noop_unmapped e hg he h
  · refine rule6_noop_noMarker e ?_
    rcases not_and_or.mp hg with h2 | h2
    · exact Or.inl (not_not.mp h2)
    · exact Or.inr (by simpa using h2)

theorem rule6_post_stable (x : TimeEntry) :
    ((applyRule6_NoBillDetection x).1.description = "" ∨
      strContainsStr (strLower (applyRule6_NoBillDetection x).1.description) "no bill" = false) ∨
    ((applyRule6_NoBillDetection x).1.laborRate = "" ∨
      strEnds (strUpper (applyRule6_NoBillDetection x).1.laborRate) "NB" = true) ∨
    rule6NoBillRate (applyRule6_NoBillDetection x).1.laborRate =
      (applyRule6_NoBillDetection x).1.laborRate := by
  by_cases hg : x.description ≠ "" ∧ strContainsStr (strLower x.description) "no bill" = true
  · by_cases he : x.laborRate = "" ∨ strEnds (strUpper x.laborRate) "NB" = true
    · rw [rule6_noop_early x hg he]
      exact Or.inr (Or.inl he)
    · by_cases hc : rule6NoBillRate x.laborRate = x.laborRate
      · rw [rule6_noop_unmapped x hg he hc]
        exact Or.inr (Or.inr hc)
      · rw [rule6_fires x hg he hc]
        dsimp only
        exact Or.inr (Or.inl (Or.inr ((rule6NoBillRate_cases x.laborRate).resolve_left hc)))
  · have hx : x.description = "" ∨ strContainsStr (strLower x.description) "no bill" = false := by
      rcases not_and_or.mp hg with h2 | h2
      · exact Or.inl (not_not.mp h2)
      · exact Or.inr (by simpa using h2)
    rw [rule6_noop_noMarker x hx]
    exact Or.inl hx

theorem rule6_preserves_rule5_stable (x : TimeEntry)
    (h : x.payType ≠ "Call" ∨ strContainsStr (strUpper x.laborRate) "OT" = true) :
    (applyRule6_NoBillDetection x).1.payType ≠ "Call" ∨
    strContainsStr (strUpper (applyRule6_NoBillDetection x).1.laborRate) "OT" = true := by
  rcases h with h | h
  · obtain ⟨l, hs⟩ := rule6_shape x
    rw [hs]
    exact Or.inl h
  · rw [rule6_rate_of_OT x h]
    exact Or.inr h

/-! ### Guard-level no-op lemmas, matching the validation conditions -/

theorem if_singleton_nil {c : Prop} [Decidable c] {m : String}
    (h : (if c then [m] else []) = []) : ¬ c := by
  intro hc
  rw [if_pos hc] at h
  cases h

theorem rule2_noop_guard (e : TimeEntry)
    (h : ¬ ((strUpper e.costCode = "SERVICE" ∨ strUpper e.costCode = "INSTALL") ∧
            ¬ SERVICE_INSTALL_LABOR_RATES.contains e.laborRate = true)) :
    applyRule2_ServiceInstallRates e = (e, []) := by
  unfold applyRule2_ServiceInstallRates
  dsimp only
  rw [if_neg h]

theorem rule3_noop_guard (e : TimeEntry)
    (h : ¬ ((strUpper e.costCode = "PM" ∨ strUpper e.costCode = "PMF" ∨
             strUpper e.costCode = "FTPM") ∧
            ¬ PM_LABOR_RATES.contains e.laborRate = true)) :
    applyRule3_PMRates e = (e, []) := by
  unfold applyRule3_PMRates
  dsimp only
  rw [if_neg h]

theorem rule7_noop_guard (e : TimeEntry)
    (h : ¬ (OFFICE_COST_CODES.contains (strUpper e.costCode) = true ∧
            e.payType ≠ "Regular")) :
    applyRule7_OfficeOverride e = (e, []) := by
  unfold applyRule7_OfficeOverride
  dsimp only
  rw [if_neg h]

theorem rule4_noop_compliant (e : TimeEntry)
    (hpt : e.payType = "Double Time")
    (hrate : strContainsStr (strUpper e.laborRate) "PREM" = true) :
    applyRule4_SundayPremium e = (e, []) := by
  unfold applyRule4_SundayPremium
  split
  · dsimp only
    rw [if_neg (not_not_intro hpt)]
    dsimp only
    rw [if_neg]
    rintro (h | h)
    · rw [h] at hrate
      exact absurd hrate (by decide)
    · exact h hrate
  · rfl

/-! ### Change-record lemmas for the individual rules -/

theorem rule1_changes_spec (e : TimeEntry) :
    ∀ c ∈ (applyRule1_TechUnapplied e).2,
      c.rule = "Rule 1: TechUnapplied → Unapplied Pay Type" ∧
      c.originalValue ≠ c.correctedValue := by
  unfold applyRule1_TechUnapplied
  split
  · rename_i hg
    intro c hc
    simp only [List.mem_singleton] at hc
    subst hc
    exact ⟨rfl, by simpa [mkChange] using hg.2⟩
  · intro c hc
    simp at hc

theorem rule2_changes_spec (e : TimeEntry) :
    ∀ c ∈ (applyRule2_ServiceInstallRates e).2,
      c.rule = "Rule 2: Service/Install Labor Rate Validation" ∧
      c.originalValue ≠ c.correctedValue := by
  unfold applyRule2_ServiceInstallRates
  dsimp only
  split
  · rename_i hg
    intro c hc
    simp only [List.mem_singleton] at hc
    subst hc
    refine ⟨rfl, ?_⟩
    intro heq
    simp only [mkChange] at heq
    exact hg.2 (by rw [heq]; decide)
  · intro c hc
    simp at hc

theorem rule3_changes_spec (e : TimeEntry) :
    ∀ c ∈ (applyRule3_PMRates e).2,
      c.rule = "Rule 3: PM Labor Rate Validation" ∧
      c.originalValue ≠ c.correctedValue := by
  unfold applyRule3_PMRates
  dsimp only
  split
  · rename_i hg
    intro c hc
    simp only [List.mem_singleton] at hc
    subst hc
    refine ⟨rfl, ?_⟩
    intro heq
    simp only [mkChange] at heq
    exact hg.2 (by rw [heq]; decide)
  · intro c hc
    simp at hc

theorem rule4_changes_spec (e : TimeEntry) :
    ∀ c ∈ (applyRule4_SundayPremium e).2,
      (c.rule = "Rule 4: Sunday Premium Pay" ∨ c.rule = "Rule 4: Sunday Premium Rate") ∧
      c.originalValue ≠ c.correctedValue := by
  unfold applyRule4_SundayPremium
  split
  · dsimp only
    split <;> dsimp only <;> split
    · rename_i hpt hrg
      intro c hc
      simp only [List.cons_append, List.nil_append, List.mem_cons,
        List.not_mem_nil, or_false] at hc
      rcases hc with hc | hc
      · subst hc
        exact ⟨Or.inl rfl, by simpa [mkChange] using hpt⟩
      · subst hc
        refine ⟨Or.inr rfl, ?_⟩
        intro heq
        simp only [mkChange] at heq
        rcases hrg with hr | hr
        · rw [hr] at heq
          exact rule4PremRate_ne_empty _ heq.symm
        · rw [heq] at hr
          exact hr (rule4PremRate_hasPREM _)
    · rename_i hpt hrg
      intro c hc
      simp only [List.cons_append, List.nil_append, List.mem_singleton] at hc
      subst hc
      exact ⟨Or.inl rfl, by simpa [mkChange] using hpt⟩
    · rename_i hpt hrg
      intro c hc
      simp only [List.nil_append, List.mem_singleton] at hc
      subst hc
      refine ⟨Or.inr rfl, ?_⟩
      intro heq
      simp only [mkChange] at heq
      rcases hrg with hr | hr
      · rw [hr] at heq
        exact rule4PremRate_ne_empty _ heq.symm
      · rw [heq] at hr
        exact hr (rule4PremRate_hasPREM _)
    · intro c hc
      simp at hc
  · intro c hc
    simp at hc

theorem rule5_changes_spec (e : TimeEntry) :
    ∀ c ∈ (applyRule5_CallWork e).2,
      c.rule = "Rule 5: Call Work Labor Rate" ∧
      c.originalValue ≠ c.correctedValue := by
  unfold applyRule5_CallWork
  split
  · dsimp only
    split
    · intro c hc
      simp at hc
    · split
      · rename_i hne
        intro c hc
        simp only [List.mem_singleton] at hc
        subst hc
        exact ⟨rfl, by simpa [mkChange] using hne⟩
      · intro c hc
        simp at hc
  · intro c hc
    simp at hc

theorem rule6_changes_spec (e : TimeEntry) :
    ∀ c ∈ (applyRule6_NoBillDetection e).2,
      c.rule = "Rule 6: No Bill Detection" ∧
      c.originalValue ≠ c.correctedValue := by
  unfold applyRule6_NoBillDetection
  split
  · split
    · intro c hc
      simp at hc
    · dsimp only
      split
      · rename_i hne
        intro c hc
        simp only [List.mem_singleton] at hc
        subst hc
        exact ⟨rfl, by simpa [mkChange] using (Ne.symm hne)⟩
      · intro c hc
        simp at hc
  · intro c hc
    simp at hc

theorem rule7_changes_spec (e : TimeEntry) :
    ∀ c ∈ (applyRule7_OfficeOverride e).2,
      c.rule = "Rule 7: Office Override" ∧
      c.originalValue ≠ c.correctedValue := by
  unfold applyRule7_OfficeOverride
  dsimp only
  split
  · rename_i hg
    intro c hc
    simp only [List.mem_singleton] at hc
    subst hc
    exact ⟨rfl, by simpa [mkChange] using hg.2⟩
  · intro c hc
    simp at hc

/-! ### Parser lemmas: positivity of extracted hours and scan truncation -/

theorem DecVal.toRat_pos (d : DecVal) (h : 0 < d.num) : 0 < d.toRat := by
  unfold DecVal.toRat
  have hn : (0 : Rat) < (d.num : Rat) := by exact_mod_cast h
  positivity

theorem parseTimeEntryA_pos (l ds : String) (en : TimeEntry)
    (h : parseTimeEntryA l ds = some en) : 0 < en.hours.num := by
  unfold parseTimeEntryA at h
  split at h
  · cases h
  · dsimp only at h
    split at h
    · rename_i hpos
      cases h
      exact hpos
    · cases h

theorem payPeriodUpd_buffer (st : ParseState) (t : String) :
    (payPeriodUpd st t).buffer = st.buffer := by
  unfold payPeriodUpd
  repeat' split
  all_goals rfl

theorem payPeriodUpd_out (st : ParseState) (t : String) :
    (payPeriodUpd st t).out = st.out := by
  unfold payPeriodUpd
  repeat' split
  all_goals rfl

theorem reportDateUpd_buffer (st : ParseState) (t : String) :
    (reportDateUpd st t).buffer = st.buffer := by
  unfold reportDateUpd
  repeat' split
  all_goals rfl

theorem reportDateUpd_out (st : ParseState) (t : String) :
    (reportDateUpd st t).out = st.out := by
  unfold reportDateUpd
  repeat' split
  all_goals rfl

theorem flushState_inv (st : ParseState)
    (hb : ∀ e ∈ st.buffer, 0 < e.hours.num) (ho : ∀ e ∈ st.out, 0 < e.hours.num) :
    (∀ e ∈ (flushState st).buffer, 0 < e.hours.num) ∧
    (∀ e ∈ (flushState st).out, 0 < e.hours.num) := by
  unfold flushState
  split
  · constructor
    · intro e he
      simp at he
    · intro e he
      simp only [List.mem_append, List.mem_map] at he
      rcases he with he | ⟨b, hbm, rfl⟩
      · exact ho e he
      · exact hb b hbm
  · exact ⟨hb, ho⟩

theorem newEmp_inv (st : ParseState) (nm ident : String)
    (hb : ∀ e ∈ st.buffer, 0 < e.hours.num) (ho : ∀ e ∈ st.out, 0 < e.hours.num) :
    (∀ e ∈ (newEmp st nm ident).buffer, 0 < e.hours.num) ∧
    (∀ e ∈ (newEmp st nm ident).out, 0 < e.hours.num) := by
  unfold newEmp
  split
  · refine ⟨fun e he => by simp at he, ?_⟩
    exact (flushState_inv st hb ho).2
  · exact ⟨fun e he => by simp at he, ho⟩

theorem entryUpdA_inv (st : ParseState) (t : String)
    (hb : ∀ e ∈ st.buffer, 0 < e.hours.num) (ho : ∀ e ∈ st.out, 0 < e.hours.num) :
    (∀ e ∈ (entryUpdA st t).buffer, 0 < e.hours.num) ∧
    (∀ e ∈ (entryUpdA st t).out, 0 < e.hours.num) := by
  unfold entryUpdA
  split
  · split
    · split
      · split
        · rename_i en hpe
          refine ⟨?_, ho⟩
          intro e he
          simp only [List.mem_append, List.mem_singleton] at he
          rcases he with he | rfl
          · exact hb e he
          · exact parseTimeEntryA_pos _ _ _ hpe
        · exact ⟨hb, ho⟩
      · exact ⟨hb, ho⟩
    · exact ⟨hb, ho⟩
  · exact ⟨hb, ho⟩

theorem etUpd_inv (st : ParseState) (t : String)
    (hb : ∀ e ∈ st.buffer, 0 < e.hours.num) (ho : ∀ e ∈ st.out, 0 < e.hours.num) :
    (∀ e ∈ (etUpd st t).buffer, 0 < e.hours.num) ∧
    (∀ e ∈ (etUpd st t).out, 0 < e.hours.num) := by
  unfold etUpd
  split
  · split
    · refine ⟨fun e he => by simp at he, ?_⟩
      exact (flushState_inv st hb ho).2
    · exact ⟨fun e he => by simp at he, ho⟩
  · exact ⟨hb, ho⟩

theorem stepA_inv (st : ParseState) (l : String)
    (hb : ∀ e ∈ st.buffer, 0 < e.hours.num) (ho : ∀ e ∈ st.out, 0 < e.hours.num) :
    (∀ e ∈ (stepA st l).1.buffer, 0 < e.hours.num) ∧
    (∀ e ∈ (stepA st l).1.out, 0 < e.hours.num) := by
  unfold stepA
  dsimp only
  split
  · exact ⟨hb, ho⟩
  · have hb2 : ∀ e ∈ (reportDateUpd (payPeriodUpd st (jsTrim l)) (jsTrim l)).buffer,
        0 < e.hours.num := by
      rw [reportDateUpd_buffer, payPeriodUpd_buffer]
      exact hb
    have ho2 : ∀ e ∈ (reportDateUpd (payPeriodUpd st (jsTrim l)) (jsTrim l)).out,
        0 < e.hours.num := by
      rw [reportDateUpd_out, payPeriodUpd_out]
      exact ho
    split
    · exact newEmp_inv _ _ _ hb2 ho2
    · exact etUpd_inv _ _ (entryUpdA_inv _ _ hb2 ho2).1 (entryUpdA_inv _ _ hb2 ho2).2

theorem runA_inv (ls : List String) :
    ∀ st : ParseState, (∀ e ∈ st.buffer, 0 < e.hours.num) →
      (∀ e ∈ st.out, 0 < e.hours.num) →
      (∀ e ∈ (runA st ls).buffer, 0 < e.hours.num) ∧
      (∀ e ∈ (runA st ls).out, 0 < e.hours.num) := by
  induction ls with
  | nil => exact fun st hb ho => ⟨hb, ho⟩
  | cons l ls ih =>
    intro st hb ho
    unfold runA
    dsimp only
    split
    · exact stepA_inv st l hb ho
    · exact ih _ (stepA_inv st l hb ho).1 (stepA_inv st l hb ho).2

theorem finalFlush_inv (st : ParseState)
    (hb : ∀ e ∈ st.buffer, 0 < e.hours.num) (ho : ∀ e ∈ st.out, 0 < e.hours.num) :
    ∀ e ∈ (finalFlush st).out, 0 < e.hours.num := by
  unfold finalFlush
  split
  · exact (flushState_inv st hb ho).2
  · exact ho

theorem stepA_stops (rt : String)
    (hrt : strContainsStr (jsTrim rt) "Report Totals" = true)
    (hhdr : employeeHeaderMatchA (jsTrim rt) = none) :
    ∀ st : ParseState, (stepA st rt).2 = true := by
  intro st
  unfold stepA
  dsimp only
  have ht : ¬ (jsTrim rt = "") := by
    intro h
    rw [h] at hrt
    exact absurd hrt (by decide)
  rw [if_neg ht, hhdr]
  dsimp only
  exact hrt

theorem runA_stops_after (rt : String) (suff : List String)
    (hrt : strContainsStr (jsTrim rt) "Report Totals" = true)
    (hhdr : employeeHeaderMatchA (jsTrim rt) = none) :
    ∀ (pre : List String) (st : ParseState),
      runA st (pre ++ rt :: suff) = runA st (pre ++ [rt]) := by
  intro pre
  induction pre with
  | nil =>
    intro st
    simp only [List.nil_append]
    unfold runA
    dsimp only
    rw [stepA_stops rt hrt hhdr st]
    rfl
  | cons l pre ih =>
    intro st
    simp only [List.cons_append]
    unfold runA
    dsimp only
    split
    · rfl
    · exact ih _

theorem runB_stops_at (rt : String) (suff : List String) (fuel : Nat) (st : ParseState)
    (hrt : strContainsStr (jsTrim rt) "Report Totals" = true)
    (hhdr : headerCondB (jsTrim rt) = none)
    (hjob : jobCodeMatchB (jsTrim rt) = none) :
    runB (fuel + 1) st (rt :: suff) = runB (fuel + 1) st [rt] := by
  have ht : ¬ (jsTrim rt = "") := by
    intro h
    rw [h] at hrt
    exact absurd hrt (by decide)
  unfold runB
  dsimp only
  rw [if_neg ht, hhdr]
  dsimp only
  rw [hjob]
  cases hemp : (reportDateUpd (payPeriodUpd st (jsTrim rt)) (jsTrim rt)).currentEmp with
  | none =>
    dsimp only
    simp only [hrt]
    rw [if_neg ht]
    simp
  | some p =>
    dsimp only
    simp only [hrt]
    rw [if_neg ht]
    simp

/-! ### Pipeline-level lemmas -/

theorem applyEntryRules_shape (e : TimeEntry) :
    ∃ p l, (applyEntryRules e).1 = { e with payType := p, laborRate := l } := by
  unfold applyEntryRules
  dsimp only
  obtain ⟨p1, h1⟩ := rule1_shape e
  rw [h1]
  obtain ⟨l2, h2⟩ := rule2_shape { e with payType := p1 }
  rw [h2]
  obtain ⟨l3, h3⟩ := rule3_shape { e with payType := p1, laborRate := l2 }
  rw [h3]
  obtain ⟨p4, l4, h4⟩ := rule4_shape { e with payType := p1, laborRate := l3 }
  rw [h4]
  obtain ⟨l5, h5⟩ := rule5_shape { e with payType := p4, laborRate := l4 }
  rw [h5]
  obtain ⟨l6, h6⟩ := rule6_shape { e with payType := p4, laborRate := l5 }
  rw [h6]
  obtain ⟨p7, h7⟩ := rule7_shape { e with payType := p4, laborRate := l6 }
  rw [h7]
  exact ⟨p7, l6, rfl⟩

theorem applyEntryRules_changes_ne (e : TimeEntry) :
    ∀ c ∈ (applyEntryRules e).2, c.originalValue ≠ c.correctedValue := by
  unfold applyEntryRules
  dsimp only
  intro c hc
  simp only [List.mem_append] at hc
  rcases hc with ((((((hc | hc) | hc) | hc) | hc) | hc) | hc)
  · exact (rule1_changes_spec _ c hc).2
  · exact (rule2_changes_spec _ c hc).2
  · exact (rule3_changes_spec _ c hc).2
  · exact (rule4_changes_spec _ c hc).2
  · exact (rule5_changes_spec _ c hc).2
  · exact (rule6_changes_spec _ c hc).2
  · exact (rule7_changes_spec _ c hc).2

theorem applyRules_changes_ne (es : List TimeEntry) :
    ∀ c ∈ (applyRules es).2, c.originalValue ≠ c.correctedValue := by
  induction es with
  | nil =>
    intro c hc
    simp [applyRules] at hc
  | cons e rest ih =>
    intro c hc
    unfold applyRules at hc
    dsimp only at hc
    simp only [List.mem_append] at hc
    rcases hc with hc | hc
    · exact applyEntryRules_changes_ne e c hc
    · exact ih c hc

theorem applyRules_singleton (e : TimeEntry) :
    applyRules [e] = ([(applyEntryRules e).1], (applyEntryRules e).2) := by
  unfold applyRules applyRules
  simp

/-! ### Claim theorems for the rule engine -/

/-- C3: for every entry whose date falls on a Sunday, rule 4 forces the pay
type to Double Time and, when the labor rate does not already contain PREM
case-insensitively, rewrites the labor rate to the branch-prefix-preserving
PREM variant of the specification table. -/
theorem c3_sunday_premium (e : TimeEntry) (h : isSundayDate e.date = true) :
    (applyRule4_SundayPremium e).1.payType = "Double Time" ∧
    (applyRule4_SundayPremium e).1.laborRate =
      (if strContainsStr (strUpper e.laborRate) "PREM" = true then e.laborRate
       else premVariantSpec e.laborRate) := by
  have hspec : ∀ r, premVariantSpec r = rule4PremRate (strUpper r) := fun _ => rfl
  unfold applyRule4_SundayPremium
  rw [if_pos h]
  dsimp only
  constructor
  · split
    · dsimp only
      split
      · rfl
      · rfl
    · rename_i hpt
      dsimp only
      split
      · exact not_not.mp hpt
      · exact not_not.mp hpt
  · split
    · dsimp only
      split
      · rename_i hrg
        have hcf : ¬ (strContainsStr (strUpper e.laborRate) "PREM" = true) := by
          rcases hrg with h0 | h0
          · rw [h0]; decide
          · exact h0
        rw [if_neg hcf]
        exact (hspec e.laborRate).symm
      · rename_i hrg
        have hcc : strContainsStr (strUpper e.laborRate) "PREM" = true := by
          by_contra hcn
          exact hrg (Or.inr hcn)
        rw [if_pos hcc]
    · dsimp only
      split
      · rename_i hrg
        have hcf : ¬ (strContainsStr (strUpper e.laborRate) "PREM" = true) := by
          rcases hrg with h0 | h0
          · rw [h0]; decide
          · exact h0
        rw [if_neg hcf]
        exact (hspec e.laborRate).symm
      · rename_i hrg
        have hcc : strContainsStr (strUpper e.laborRate) "PREM" = true := by
          by_contra hcn
          exact hrg (Or.inr hcn)
        rw [if_pos hcc]

/-- Witness for C3: the entry dated Sunday 08/03/2025 with Regular pay and
the SCH_TECH rate ends with Double Time pay and the SCH PREM rate. -/
theorem c3_sunday_premium_witness :
    isSundayDate entSunday.date = true ∧
    (applyRule4_SundayPremium entSunday).1.payType = "Double Time" ∧
    (applyRule4_SundayPremium entSunday).1.laborRate = "SCH PREM" := by
  have h := c3_sunday_premium entSunday (by decide)
  refine ⟨by decide, h.1, ?_⟩
  rw [h.2]
  decide

/-- C5: for every entry with Call pay whose labor rate does not contain OT
case-insensitively, rule 5 rewrites the labor rate to the overtime variant
of the specification mapping table. -/
theorem c5_call_overtime (e : TimeEntry) (hp : e.payType = "Call")
    (hot : strContainsStr (strUpper e.laborRate) "OT" = false) :
    (applyRule5_CallWork e).1.laborRate = callOvertimeSpec e.laborRate := by
  have hspec : callOvertimeSpec e.laborRate = rule5OvertimeRate (strUpper e.laborRate) := rfl
  unfold applyRule5_CallWork
  rw [if_pos hp]
  dsimp only
  rw [if_neg (by simp [hot])]
  split
  · rw [hspec]
  · rename_i hne
    rw [hspec]
    exact not_not.mp hne

/-- Witness for C5: a Call entry with the WN TECH rate ends with the rate
exactly WN TECHOT. -/
theorem c5_call_overtime_witness :
    entCall.payType = "Call" ∧
    strContainsStr (strUpper entCall.laborRate) "OT" = false ∧
    (applyRule5_CallWork entCall).1.laborRate = "WN TECHOT" := by
  have h := c5_call_overtime entCall rfl (by decide)
  refine ⟨rfl, by decide, ?_⟩
  rw [h]
  decide

/-- C9: applyRules is a pure function returning exactly one corrected entry
per input entry in order, each corrected entry agreeing with its input entry
on every field other than payType and laborRate; the input entries are never
mutated, the engine working on copies. -/
theorem c9_applyRules_frame (es : List TimeEntry) :
    (applyRules es).1.length = es.length ∧
    List.Forall₂ sameFrame (applyRules es).1 es := by
  induction es with
  | nil => simp [applyRules]
  | cons e rest ih =>
    unfold applyRules
    dsimp only
    refine ⟨by simp [ih.1], ?_⟩
    refine List.Forall₂.cons ?_ ih.2
    obtain ⟨p, l, h⟩ := applyEntryRules_shape e
    rw [h]
    simp [sameFrame]

/-- C10: every change record emitted by applyRules has an original value
different from its corrected value; no rule records a change for a field
already holding the value it would write. -/
theorem c10_changes_differ (es : List TimeEntry) :
    ((applyRules es).2.all fun c => c.originalValue != c.correctedValue) = true := by
  rw [List.all_eq_true]
  intro c hc
  simpa [bne_iff_ne] using applyRules_changes_ne es c hc

/-- C6 counterexample: a TechUnapplyd Call entry dated on the Sunday
08/03/2025 does not end with the Unapplied pay type; rule 4 fires after
rule 1 and overwrites it with Double Time. -/
theorem c6_counterexample :
    entPrecBad.costCategory = "TechUnapplyd" ∧ entPrecBad.payType = "Call" ∧
    (applyRules [entPrecBad]).1.map TimeEntry.payType = ["Double Time"] := by
  refine ⟨rfl, rfl, ?_⟩
  decide

/-- C6 as amended: for every entry with cost category TechUnapplyd and pay
type Call whose date is not a Sunday and whose cost code is not an office
code, applyRules produces a corrected entry with final pay type Unapplied,
and no change record of rule 5 is emitted because the pay type is no longer
Call when rule 5 runs. -/
theorem c6_rule1_precedence (e : TimeEntry)
    (hcat : e.costCategory = "TechUnapplyd") (hpt : e.payType = "Call")
    (hsun : isSundayDate e.date = false)
    (hoff : OFFICE_COST_CODES.contains (strUpper e.costCode) = false) :
    (applyRules [e]).1.map TimeEntry.payType = ["Unapplied"] ∧
    ((applyRules [e]).2.all fun c => c.rule != "Rule 5: Call Work Labor Rate") = true := by
  rw [applyRules_singleton]
  have hne : e.payType ≠ "Unapplied" := by rw [hpt]; decide
  have h1 := rule1_fires e hcat hne
  unfold applyEntryRules
  dsimp only
  rw [h1]
  dsimp only
  obtain ⟨l2, h2⟩ := rule2_shape { e with payType := "Unapplied" }
  rw [h2]
  obtain ⟨l3, h3⟩ := rule3_shape { e with payType := "Unapplied", laborRate := l2 }
  rw [h3]
  have h4 := rule4_noop { e with payType := "Unapplied", laborRate := l3 } hsun
  rw [h4]
  dsimp only
  have h5 := rule5_noop_notCall { e with payType := "Unapplied", laborRate := l3 }
    (show ("Unapplied" : String) ≠ "Call" by decide)
  rw [h5]
  dsimp only
  obtain ⟨l6, h6⟩ := rule6_shape { e with payType := "Unapplied", laborRate := l3 }
  rw [h6]
  have h7 := rule7_noop { e with payType := "Unapplied", laborRate := l6 } hoff
  rw [h7]
  dsimp only
  constructor
  · rfl
  · rw [List.all_eq_true]
    intro c hc
    simp only [List.append_nil, List.nil_append, List.mem_append] at hc
    have hname : c.rule ≠ "Rule 5: Call Work Labor Rate" := by
      rcases hc with ((hc | hc) | hc) | hc
      · rw [(rule1_changes_spec e c (by rw [h1]; exact hc)).1]
        decide
      · rw [(rule2_changes_spec { e with payType := "Unapplied" } c hc).1]
        decide
      · rw [(rule3_changes_spec { e with payType := "Unapplied", laborRate := l2 } c hc).1]
        decide
      · rw [(rule6_changes_spec { e with payType := "Unapplied", laborRate := l3 } c hc).1]
        decide
    simpa [bne_iff_ne] using hname

theorem pipe_twice_changes_nil (e : TimeEntry)
    (hsun : isSundayDate e.date = false)
    (hS : strUpper e.costCode ≠ "SERVICE") (hI : strUpper e.costCode ≠ "INSTALL")
    (hP : strUpper e.costCode ≠ "PM") (hPf : strUpper e.costCode ≠ "PMF")
    (hFt : strUpper e.costCode ≠ "FTPM")
    (hO : OFFICE_COST_CODES.contains (strUpper e.costCode) = false) :
    (applyEntryRules ((applyEntryRules e).1)).2 = [] := by
  obtain ⟨p1, hs1⟩ := rule1_shape e
  obtain ⟨l5, hs5⟩ := rule5_shape ((applyRule1_TechUnapplied e).1)
  obtain ⟨l6, hs6⟩ := rule6_shape ((applyRule5_CallWork ((applyRule1_TechUnapplied e).1)).1)
  have hcc1 : (applyRule1_TechUnapplied e).1.costCode = e.costCode := by rw [hs1]
  have hdate1 : (applyRule1_TechUnapplied e).1.date = e.date := by rw [hs1]
  have hcc6 :
      (applyRule6_NoBillDetection
        ((applyRule5_CallWork ((applyRule1_TechUnapplied e).1)).1)).1.costCode = e.costCode := by
    rw [hs6, hs5, hs1]
  have hdate6 :
      (applyRule6_NoBillDetection
        ((applyRule5_CallWork ((applyRule1_TechUnapplied e).1)).1)).1.date = e.date := by
    rw [hs6, hs5, hs1]
  have hfirst : (applyEntryRules e).1 =
      (applyRule6_NoBillDetection
        ((applyRule5_CallWork ((applyRule1_TechUnapplied e).1)).1)).1 := by
    unfold applyEntryRules
    dsimp only
    rw [rule2_noop ((applyRule1_TechUnapplied e).1)
          (by rw [hcc1]; exact hS) (by rw [hcc1]; exact hI)]
    dsimp only
    rw [rule3_noop ((applyRule1_TechUnapplied e).1)
          (by rw [hcc1]; exact hP) (by rw [hcc1]; exact hPf) (by rw [hcc1]; exact hFt)]
    dsimp only
    rw [rule4_noop ((applyRule1_TechUnapplied e).1) (by rw [hdate1]; exact hsun)]
    dsimp only
    rw [rule7_noop
          ((applyRule6_NoBillDetection
            ((applyRule5_CallWork ((applyRule1_TechUnapplied e).1)).1)).1)
          (by rw [hcc6]; exact hO)]
  have st1F :
      (applyRule6_NoBillDetection
        ((applyRule5_CallWork ((applyRule1_TechUnapplied e).1)).1)).1.costCategory ≠
          "TechUnapplyd" ∨
      (applyRule6_NoBillDetection
        ((applyRule5_CallWork ((applyRule1_TechUnapplied e).1)).1)).1.payType = "Unapplied" := by
    have st1 := rule1_post_stable e
    rw [hs6, hs5]
    exact st1
  have st5F := rule6_preserves_rule5_stable
    ((applyRule5_CallWork ((applyRule1_TechUnapplied e).1)).1)
    (rule5_post_stable ((applyRule1_TechUnapplied e).1))
  have st6F := rule6_post_stable ((applyRule5_CallWork ((applyRule1_TechUnapplied e).1)).1)
  rw [hfirst]
  unfold applyEntryRules
  dsimp only
  rw [rule1_noop _ st1F]
  dsimp only
  rw [rule2_noop _ (by rw [hcc6]; exact hS) (by rw [hcc6]; exact hI)]
  dsimp only
  rw [rule3_noop _ (by rw [hcc6]; exact hP) (by rw [hcc6]; exact hPf) (by rw [hcc6]; exact hFt)]
  dsimp only
  rw [rule4_noop _ (by rw [hdate6]; exact hsun)]
  dsimp only
  rw [rule5_noop_stable _ st5F]
  dsimp only
  rw [rule6_noop_stable _ st6F]
  dsimp only
  rw [rule7_noop _ (by rw [hcc6]; exact hO)]
  rfl

/-- C1 counterexample: on the entry entIdem the pipeline is not idempotent:
rule 1 and rule 4 both rewrite the pay type, so re-running the pipeline on
the corrected output produces further changes. -/
theorem c1_counterexample :
    (applyRules (applyRules [entIdem]).1).2 ≠ [] := by
  decide

/-- C1 as amended: the seven-rule pipeline is idempotent on every entry
whose date is not a Sunday and whose uppercased cost code is none of
SERVICE, INSTALL, PM, PMF, FTPM, 1COAD, 1SCHOF, 1WNOF: re-running
applyRules on the corrected output produces an empty change list.  On
entries outside this set the guards of rules 1, 4 and 7 and the allow-lists
of rules 2 and 3 can overlap, and a guard is then not the negation of the
postcondition left by the other rules. -/
theorem c1_idempotence_restricted (e : TimeEntry)
    (hsun : isSundayDate e.date = false)
    (hcc : strUpper e.costCode ∉
      (["SERVICE", "INSTALL", "PM", "PMF", "FTPM",
        "1COAD", "1SCHOF", "1WNOF"] : List String)) :
    (applyRules (applyRules [e]).1).2 = [] := by
  have hS : strUpper e.costCode ≠ "SERVICE" := by
    intro h; exact hcc (by rw [h]; decide)
  have hI : strUpper e.costCode ≠ "INSTALL" := by
    intro h; exact hcc (by rw [h]; decide)
  have hP : strUpper e.costCode ≠ "PM" := by
    intro h; exact hcc (by rw [h]; decide)
  have hPf : strUpper e.costCode ≠ "PMF" := by
    intro h; exact hcc (by rw [h]; decide)
  have hFt : strUpper e.costCode ≠ "FTPM" := by
    intro h; exact hcc (by rw [h]; decide)
  have h1C : strUpper e.costCode ≠ "1COAD" := by
    intro h; exact hcc (by rw [h]; decide)
  have h1S : strUpper e.costCode ≠ "1SCHOF" := by
    intro h; exact hcc (by rw [h]; decide)
  have h1W : strUpper e.costCode ≠ "1WNOF" := by
    intro h; exact hcc (by rw [h]; decide)
  have hO : OFFICE_COST_CODES.contains (strUpper e.costCode) = false := by
    have b1 : (strUpper e.costCode == "1COAD") = false := beq_eq_false_iff_ne.mpr h1C
    have b2 : (strUpper e.costCode == "1SCHOF") = false := beq_eq_false_iff_ne.mpr h1S
    have b3 : (strUpper e.costCode == "1WNOF") = false := beq_eq_false_iff_ne.mpr h1W
    simp [OFFICE_COST_CODES, List.contains, List.elem, b1, b2, b3]
  rw [applyRules_singleton]
  dsimp only
  rw [applyRules_singleton]
  dsimp only
  exact pipe_twice_changes_nil e hsun hS hI hP hPf hFt hO

/-- Witness for the amended C1 at a weekday TechUnapplyd Call entry with a
no bill description and the SHMTL cost code: the first run fires rules 1
and 6, the second run changes nothing. -/
theorem c1_idempotence_restricted_witness :
    (isSundayDate entIdemW.date = false ∧
     strUpper entIdemW.costCode ∉
       (["SERVICE", "INSTALL", "PM", "PMF", "FTPM",
         "1COAD", "1SCHOF", "1WNOF"] : List String)) ∧
    (applyRules (applyRules [entIdemW]).1).2 = [] := by
  refine ⟨⟨by decide, by decide⟩, ?_⟩
  exact c1_idempotence_restricted entIdemW (by decide) (by decide)

/-- C7 counterexample: an entry whose description carries the no bill marker
while its labor rate FOO is outside the rule 6 mapping: validateEntry
reports an issue, yet applyRules records no change, so the issue list is not
empty exactly when the change list is. -/
theorem c7_counterexample :
    validateEntry entNoBill ≠ [] ∧ (applyRules [entNoBill]).2 = [] := by
  constructor
  · decide
  · decide

/-- C7 as amended: validateEntry reads the entry without mutating it (the
embedding is pure), and an empty issue list implies that applyRules records
no changes; the converse direction fails because the rule 6 correction is a
no-op on labor rates outside its mapping table while validation still
reports the missing NB suffix. -/
theorem c7_validate_empty_implies_no_changes (e : TimeEntry)
    (hv : validateEntry e = []) : (applyRules [e]).2 = [] := by
  unfold validateEntry at hv
  dsimp only at hv
  obtain ⟨h16, hc7⟩ := List.append_eq_nil.mp hv
  obtain ⟨h15, hc6⟩ := List.append_eq_nil.mp h16
  obtain ⟨h14, hc5⟩ := List.append_eq_nil.mp h15
  obtain ⟨h13, hc4⟩ := List.append_eq_nil.mp h14
  obtain ⟨h12, hc3⟩ := List.append_eq_nil.mp h13
  obtain ⟨hc1, hc2⟩ := List.append_eq_nil.mp h12
  have n1 := if_singleton_nil hc1
  have n2 := if_singleton_nil hc2
  have n3 := if_singleton_nil hc3
  have n5 := if_singleton_nil hc5
  have n6 := if_singleton_nil hc6
  have n7 := if_singleton_nil hc7
  have r1 : applyRule1_TechUnapplied e = (e, []) := by
    refine rule1_noop e ?_
    rcases not_and_or.mp n1 with h | h
    · exact Or.inl h
    · exact Or.inr (not_not.mp h)
  have r2 := rule2_noop_guard e n2
  have r3 := rule3_noop_guard e n3
  have r4 : applyRule4_SundayPremium e = (e, []) := by
    by_cases hsun : isSundayDate e.date = true
    · rw [if_pos hsun] at hc4
      obtain ⟨hA, hB⟩ := List.append_eq_nil.mp hc4
      exact rule4_noop_compliant e (not_not.mp (if_singleton_nil hA))
        (not_not.mp (if_singleton_nil hB))
    · exact rule4_noop e (by simpa using hsun)
  have r5 : applyRule5_CallWork e = (e, []) := by
    refine rule5_noop_stable e ?_
    rcases not_and_or.mp n5 with h | h
    · exact Or.inl h
    · exact Or.inr (not_not.mp h)
  have r6 : applyRule6_NoBillDetection e = (e, []) := by
    refine rule6_noop_stable e ?_
    rcases not_and_or.mp n6 with h | h
    · exact Or.inl (Or.inl (not_not.mp h))
    · rcases not_and_or.mp h with h | h
      · exact Or.inl (Or.inr (by simpa using h))
      · rcases not_and_or.mp h with h | h
        · exact Or.inr (Or.inl (Or.inl (not_not.mp h)))
        · exact Or.inr (Or.inl (Or.inr (not_not.mp h)))
  have r7 := rule7_noop_guard e n7
  rw [applyRules_singleton]
  dsimp only
  unfold applyEntryRules
  dsimp only
  rw [r1]
  dsimp only
  rw [r2]
  dsimp only
  rw [r3]
  dsimp only
  rw [r4]
  dsimp only
  rw [r5]
  dsimp only
  rw [r6]
  dsimp only
  rw [r7]
  rfl

/-- Witness for the amended C7 at a fully compliant entry. -/
theorem c7_validate_empty_implies_no_changes_witness :
    validateEntry entClean = [] ∧ (applyRules [entClean]).2 = [] := by
  refine ⟨by decide, ?_⟩
  exact c7_validate_empty_implies_no_changes entClean (by decide)

/-- Witness for the amended C6 at a weekday TechUnapplyd Call entry with a
SERVICE cost code. -/
theorem c6_rule1_precedence_witness :
    (entPrecOk.costCategory = "TechUnapplyd" ∧ entPrecOk.payType = "Call" ∧
     isSundayDate entPrecOk.date = false ∧
     OFFICE_COST_CODES.contains (strUpper entPrecOk.costCode) = false) ∧
    (applyRules [entPrecOk]).1.map TimeEntry.payType = ["Unapplied"] := by
  have h := c6_rule1_precedence entPrecOk rfl rfl (by decide) (by decide)
  exact ⟨⟨rfl, rfl, by decide, by decide⟩, h.1⟩

/-- C2 counterexample: the four-line parser keeps a candidate entry whose
hours line is the digit zero, so an entry whose hours value is 0 appears in
the output. -/
theorem c2_counterexample :
    (parseEmployeeDataB txtHoursB).length = 1 ∧
    ((parseEmployeeDataB txtHoursB).map fun e => e.hours.toRat) = [0] := by
  have h : ((parseEmployeeDataB txtHoursB).map fun e => e.hours) =
      [⟨0, 0⟩] := by decide
  refine ⟨by decide, ?_⟩
  have h2 : ((parseEmployeeDataB txtHoursB).map fun e => e.hours.toRat) =
      (((parseEmployeeDataB txtHoursB).map fun e => e.hours).map DecVal.toRat) := by
    rw [List.map_map]
    rfl
  rw [h2, h]
  simp [DecVal.toRat]

/-- C2 as amended: every entry returned by the single-line parser has hours
strictly greater than zero; a single-line candidate whose hours value is 0
or unparseable is discarded during extraction.  The four-line parser shares
the unparseable case but retains a parseable hours value of 0. -/
theorem c2_hours_positive (text : String) :
    ∀ e ∈ parseEmployeeDataA text, 0 < e.hours.toRat := by
  intro e he
  unfold parseEmployeeDataA at he
  have hinit : ∀ x ∈ (initState).buffer, 0 < x.hours.num := by
    intro x hx
    simp [initState] at hx
  have hinit2 : ∀ x ∈ (initState).out, 0 < x.hours.num := by
    intro x hx
    simp [initState] at hx
  have h := finalFlush_inv _ (runA_inv (splitLinesStr text) initState hinit hinit2).1
    (runA_inv (splitLinesStr text) initState hinit hinit2).2
  exact DecVal.toRat_pos _ (h e he)

/-- Witness for the amended C2 at the first entry of the grouping input. -/
theorem c2_hours_positive_witness :
    ((parseEmployeeDataA txtGrouping).headD ({} : TimeEntry)) ∈
      parseEmployeeDataA txtGrouping ∧
    0 < ((parseEmployeeDataA txtGrouping).headD ({} : TimeEntry)).hours.toRat := by
  refine ⟨by decide, ?_⟩
  exact c2_hours_positive txtGrouping _ (by decide)

/-- C4: on the two-employee single-line input, the single-line parser
returns exactly four entries in source order, the first two stamped with
employee identifier 101 and the next two with 202. -/
theorem c4_parser_grouping :
    ((parseEmployeeDataA txtGrouping).map
        fun e => (e.employeeId, e.employeeName, e.date, e.hours.num)) =
      [("101", "John Smith", "08/04/2025", 800),
       ("101", "John Smith", "08/05/2025", 450),
       ("202", "Jane Doe", "08/04/2025", 600),
       ("202", "Jane Doe", "08/05/2025", 200)] := by
  decide

/-- C8 counterexample: the first line of the input contains Report Totals
but also matches the employee header pattern, so the header branch of the
scan continues past it and an entry from a later line is still parsed. -/
theorem c8_counterexample :
    strContainsStr (jsTrim ((splitLinesStr txtTrunc).headD "")) "Report Totals" = true ∧
    ((parseEmployeeDataA txtTrunc).map fun e => e.originalLine) =
      ["(J1)x 08/04/2025 8.00 - Regular - Tech - SERVICE - DirLab - d"] := by
  constructor
  · decide
  · decide

/-- C8 as amended, covering both scan loops.  Single-line scan: appending
any suffix of lines after a line that contains the report totals marker and
is not consumed as an employee header leaves the parse result unchanged,
because the scan stops at that line.  Four-line scan: once the scanner
reaches a line that contains the marker, is not consumed as an employee
header, and does not start a four-line entry window (its job code pattern
does not match), scanning stops there and every later line is ignored.  The
guarantee is only from the moment such a line is reached: a marker-bearing
line can instead be consumed by the header branch, or swallowed by a
four-line window as its job code, detail or noise line, and later lines are
then still parsed. -/
theorem c8_truncation (pre suff : List String) (rt : String)
    (fuel : Nat) (st : ParseState) :
    (strContainsStr (jsTrim rt) "Report Totals" = true →
     employeeHeaderMatchA (jsTrim rt) = none →
     (finalFlush (runA initState (pre ++ rt :: suff))).out =
       (finalFlush (runA initState (pre ++ [rt]))).out) ∧
    (strContainsStr (jsTrim rt) "Report Totals" = true →
     headerCondB (jsTrim rt) = none →
     jobCodeMatchB (jsTrim rt) = none →
     runB (fuel + 1) st (rt :: suff) = runB (fuel + 1) st [rt]) := by
  constructor
  · intro hrt hhdr
    rw [runA_stops_after rt suff hrt hhdr pre initState]
  · intro hrt hhdr hjob
    exact runB_stops_at rt suff fuel st hrt hhdr hjob

/-- Witness for the amended C8: dropping entry-like lines after a plain
report totals line does not change either parse. -/
theorem c8_truncation_witness :
    ((strContainsStr (jsTrim rtLineW) "Report Totals" = true ∧
      employeeHeaderMatchA (jsTrim rtLineW) = none ∧
      headerCondB (jsTrim rtLineW) = none ∧
      jobCodeMatchB (jsTrim rtLineW) = none) ∧
     (finalFlush (runA initState (linesPreW ++ rtLineW :: linesSuffW))).out =
       (finalFlush (runA initState (linesPreW ++ [rtLineW]))).out) ∧
    runB (5 + 1) initState (rtLineW :: linesSuffW) =
      runB (5 + 1) initState [rtLineW] := by
  refine ⟨⟨⟨by decide, by decide, by decide, by decide⟩, ?_⟩, ?_⟩
  · exact (c8_truncation linesPreW linesSuffW rtLineW 5 initState).1
      (by decide) (by decide)
  · exact (c8_truncation linesPreW linesSuffW rtLineW 5 initState).2
      (by decide) (by decide) (by decide)

end Payroll
